import Mathlib

/-!
Verification development for the citrea core subsystems:
UTXO selection and inscription builders (bitcoin-da), the fork manager
(primitives), and the soft-confirmation STF blueprint
(sov-modules-stf-blueprint).  Shallow embedding: pure Lean functions
mirror the Rust source; machine integers are Nat, and the one unchecked
u64 subtraction that can underflow on reachable inputs (the change
computation of build_commit_transaction) is modelled with an explicit
two's-complement wrap mod 2^64 (u64sub), the release-mode semantics; all
other subtractions in the modelled code are guarded by the source's own
comparisons.  Fallible code returns Except or an Outcome type with a
fatal constructor modelling Rust panics.
-/

namespace Citrea

/-- Byte strings are lists of naturals (each intended to be < 256). -/
abbrev Bytes := List Nat

/-- Mirrors Rust slice starts_with: true when the second list begins with the first. -/
def startsWith : Bytes → Bytes → Bool
  | [], _ => true
  | _ :: _, [] => false
  | a :: as, b :: bs => a == b && startsWith as bs

/-- Stable insertion used by stableSort: x is placed after exactly those
already-sorted elements y with lt y x, hence before equal elements. -/
def insertStable {α : Type} (lt : α → α → Bool) (x : α) : List α → List α
  | [] => [x]
  | y :: ys => if lt y x then y :: insertStable lt x ys else x :: y :: ys

/-- Stable sort by the strict comparator lt (insertion sort folded from the
right).  Models Rust's stable sort_by / sort_by_key: any two stable sorts
under the same total preorder produce the same list. -/
def stableSort {α : Type} (lt : α → α → Bool) : List α → List α
  | [] => []
  | x :: xs => insertStable lt x (stableSort lt xs)

/-! ## SHA-256 (executable, byte-level)

Standard FIPS 180-4 SHA-256 over byte lists, used to settle the Merkle
root claims concretely.  All words are Nat reduced mod 2^32. -/

/-- Two to the thirty-second power, the word modulus. -/
def w32 : Nat := 4294967296

/-- Right rotation of a 32-bit word by n places. -/
def rotr (n x : Nat) : Nat := x / 2 ^ n + x % 2 ^ n * 2 ^ (32 - n)

/-- Right shift of a 32-bit word. -/
def shr (n x : Nat) : Nat := x / 2 ^ n

/-- Bitwise complement within 32 bits. -/
def not32 (x : Nat) : Nat := 4294967295 - x

/-- SHA-256 Ch function. -/
def ch (x y z : Nat) : Nat := Nat.xor (Nat.land x y) (Nat.land (not32 x) z)

/-- SHA-256 Maj function. -/
def maj (x y z : Nat) : Nat :=
  Nat.xor (Nat.xor (Nat.land x y) (Nat.land x z)) (Nat.land y z)

/-- SHA-256 big sigma 0. -/
def bSig0 (x : Nat) : Nat := Nat.xor (Nat.xor (rotr 2 x) (rotr 13 x)) (rotr 22 x)

/-- SHA-256 big sigma 1. -/
def bSig1 (x : Nat) : Nat := Nat.xor (Nat.xor (rotr 6 x) (rotr 11 x)) (rotr 25 x)

/-- SHA-256 small sigma 0. -/
def sSig0 (x : Nat) : Nat := Nat.xor (Nat.xor (rotr 7 x) (rotr 18 x)) (shr 3 x)

/-- SHA-256 small sigma 1. -/
def sSig1 (x : Nat) : Nat := Nat.xor (Nat.xor (rotr 17 x) (rotr 19 x)) (shr 10 x)

/-- The 64 SHA-256 round constants (FIPS 180-4, written in decimal). -/
def sha256K : List Nat :=
  [1116352408, 1899447441, 3049323471, 3921009573, 961987163, 1508970993,
   2453635748, 2870763221, 3624381080, 310598401, 607225278, 1426881987,
   1925078388, 2162078206, 2614888103, 3248222580, 3835390401, 4022224774,
   264347078, 604807628, 770255983, 1249150122, 1555081692, 1996064986,
   2554220882, 2821834349, 2952996808, 3210313671, 3336571891, 3584528711,
   113926993, 338241895, 666307205, 773529912, 1294757372, 1396182291,
   1695183700, 1986661051, 2177026350, 2456956037, 2730485921, 2820302411,
   3259730800, 3345764771, 3516065817, 3600352804, 4094571909, 275423344,
   430227734, 506948616, 659060556, 883997877, 958139571, 1322822218,
   1537002063, 1747873779, 1955562222, 2024104815, 2227730452, 2361852424,
   2428436474, 2756734187, 3204031479, 3329325298]

/-- Length padding: the message length in bits as 8 big-endian bytes. -/
def lenBytes (n : Nat) : Bytes :=
  [n * 8 / 2 ^ 56 % 256, n * 8 / 2 ^ 48 % 256, n * 8 / 2 ^ 40 % 256,
   n * 8 / 2 ^ 32 % 256, n * 8 / 2 ^ 24 % 256, n * 8 / 2 ^ 16 % 256,
   n * 8 / 2 ^ 8 % 256, n * 8 % 256]

/-- SHA-256 padding of a byte message to a multiple of 64 bytes. -/
def padMsg (msg : Bytes) : Bytes :=
  msg ++ 128 :: List.replicate ((64 - (msg.length + 9) % 64) % 64) 0
      ++ lenBytes msg.length

/-- Group bytes into 32-bit big-endian words, four bytes per word. -/
def toWords : Bytes → List Nat
  | b0 :: b1 :: b2 :: b3 :: rest =>
      (b0 * 2 ^ 24 + b1 * 2 ^ 16 + b2 * 2 ^ 8 + b3) :: toWords rest
  | _ => []

/-- Split a word list into 16-word blocks (fuel-structured so that the
kernel can evaluate it; the fuel is the list length). -/
def toBlocksGo : Nat → List Nat → List (List Nat)
  | 0, _ => []
  | fuel + 1, ws =>
      if ws.length < 16 then [] else ws.take 16 :: toBlocksGo fuel (ws.drop 16)

/-- Split a word list into 16-word blocks. -/
def toBlocks (ws : List Nat) : List (List Nat) := toBlocksGo ws.length ws

/-- Extend a 16-word block to the full 64-entry message schedule. -/
def extendSched (w : List Nat) : Nat → List Nat
  | 0 => w
  | n + 1 =>
      let t := w.length
      let x := (sSig1 (w.getD (t - 2) 0) + w.getD (t - 7) 0
                + sSig0 (w.getD (t - 15) 0) + w.getD (t - 16) 0) % w32
      extendSched (w ++ [x]) n

/-- One SHA-256 round on the eight-word working state. -/
def sha256Round (st : List Nat) (kw : Nat × Nat) : List Nat :=
  match st with
  | [a, b, c, d, e, f, g, h] =>
      let t1 := (h + bSig1 e + ch e f g + kw.1 + kw.2) % w32
      let t2 := (bSig0 a + maj a b c) % w32
      [(t1 + t2) % w32, a, b, c, (d + t1) % w32, e, f, g]
  | other => other

/-- Compress one block into the running hash state. -/
def sha256Block (hstate : List Nat) (block : List Nat) : List Nat :=
  let sched := extendSched block 48
  let fin := (sha256K.zip sched).foldl sha256Round hstate
  (hstate.zip fin).map (fun p => (p.1 + p.2) % w32)

/-- The SHA-256 initial hash state (FIPS 180-4, written in decimal). -/
def sha256H0 : List Nat :=
  [1779033703, 3144134277, 1013904242, 2773480762,
   1359893119, 2600822924, 528734635, 1541459225]

/-- Serialize the final state as 32 big-endian bytes. -/
def wordsToBytes : List Nat → Bytes
  | [] => []
  | w :: ws => w / 2 ^ 24 % 256 :: w / 2 ^ 16 % 256 :: w / 2 ^ 8 % 256
      :: w % 256 :: wordsToBytes ws

/-- SHA-256 of a byte message. -/
def sha256 (msg : Bytes) : Bytes :=
  wordsToBytes ((toBlocks (toWords (padMsg msg))).foldl sha256Block sha256H0)

/-! ## Results

Outcome models the result of Rust code that can return a value, return a
recoverable error (anyhow::Error, surfaced as a string), or panic (assert
failures and unwraps); fatal is the panic case. -/

/-- Result of Rust code that may error recoverably or panic. -/
inductive Outcome (α : Type) where
  | ok (a : α)
  | err (e : String)
  | fatal (m : String)
deriving DecidableEq

/-! ## Bitcoin DA data model (crates/bitcoin-da/src/helpers/builders.rs)

Transactions are modelled structurally; bitcoin-library values that the
builders only thread through (txids, script bytes, control blocks,
addresses) are byte strings.  An Address is represented by the
script_pubkey it produces. -/

/-- The dust / reveal threshold crate constant.  Modelled from the spec:
the constant crate::REVEAL_OUTPUT_AMOUNT is defined outside the provided
sources; the spec fixes the test value 546. -/
def REVEAL_OUTPUT_AMOUNT : Nat := 546

/-- Sequence::ENABLE_RBF_NO_LOCKTIME = 0xFFFFFFFD. -/
def SEQ_RBF : Nat := 4294967293

/-- Unchecked u64 subtraction a - b in release mode: two's-complement
wrap mod 2^64 (for a, b < 2^64 this equals a - b when b ≤ a, and wraps
to a huge value when a < b; debug builds panic at such a site instead). -/
def u64sub (a b : Nat) : Nat :=
  (a + 18446744073709551616 - b) % 18446744073709551616

/-- An address, identified with the script_pubkey it pays to. -/
structure Address where
  script_pubkey : Bytes
deriving DecidableEq

/-- A transaction outpoint (txid, vout). -/
structure OutPoint where
  txid : Bytes
  vout : Nat
deriving DecidableEq

/-- A transaction input. -/
structure TxIn where
  previous_output : OutPoint
  script_sig : Bytes
  witness : List Bytes
  sequence : Nat
deriving DecidableEq

/-- A transaction output. -/
structure TxOut where
  value : Nat
  script_pubkey : Bytes
deriving DecidableEq

instance : Inhabited TxOut := ⟨⟨0, []⟩⟩

/-- A transaction. -/
structure Transaction where
  version : Nat
  lock_time : Nat
  input : List TxIn
  output : List TxOut
deriving DecidableEq

/-- A transaction together with its id, as in the source. -/
structure TxWithId where
  id : Bytes
  tx : Transaction
deriving DecidableEq

/-- The spendable-output record used by the selector.  Modelled from the
spec: the struct crate::spec::utxo::UTXO is defined outside the provided
sources; the spec data model lists these fields. -/
structure UTXO where
  tx_id : Bytes
  vout : Nat
  script_pubkey : Bytes
  address : Option Bytes
  amount : Nat
  confirmations : Nat
  spendable : Bool
  solvable : Bool
deriving DecidableEq

instance : Inhabited UTXO := ⟨⟨[], 0, [], none, 0, 0, true, true⟩⟩

/-- Size oracle: models get_size, i.e. the vsize of the transaction
assembled from the inputs and outputs with a dummy 64-byte Schnorr
signature per input plus, when a script and control block are supplied on
a single-input transaction, those two extra witness items.  The bitcoin
serialization rules are external to the modelled sources, so the claims
are proved for every such function. -/
abbrev SizeFn := List TxIn → List TxOut → Option Bytes → Option Bytes → Nat

/-- Fee oracle: models size-to-fee rounding ceil(size * fee_rate) for a
fixed f64 fee_rate; the claims hold for every such function. -/
abbrev FeeFn := Nat → Nat

/-- Greedy largest-first accumulation over the sorted smaller list, as in
the for-loop of choose_utxos: append until the sum reaches the target. -/
def greedyTake (amount : Nat) : List UTXO → List UTXO → Nat → (List UTXO × Nat)
  | [], chosen, sum => (chosen, sum)
  | u :: rest, chosen, sum =>
      let sum' := sum + u.amount
      let chosen' := chosen ++ [u]
      if sum' ≥ amount then (chosen', sum') else greedyTake amount rest chosen' sum'

/-- Deterministic coin selection, mirroring choose_utxos. -/
def choose_utxos (required_utxo : Option UTXO) (utxos : List UTXO)
    (amount : Nat) : Except String (List UTXO × Nat) :=
  let chosen0 : List UTXO := match required_utxo with
    | some required => [required]
    | none => []
  let sum0 : Nat := match required_utxo with
    | some required => required.amount
    | none => 0
  if sum0 ≥ amount then .ok (chosen0, sum0)
  else
    let amt := amount - sum0
    let bigger := utxos.filter (fun u => u.amount ≥ amt)
    if bigger.isEmpty then
      let smaller := utxos.filter (fun u => u.amount < amt)
      let sorted := stableSort (fun a b => b.amount < a.amount) smaller
      let gr := greedyTake amt sorted chosen0 sum0
      if gr.2 < amt then .error "not enough UTXOs" else .ok gr
    else
      let sorted := stableSort (fun a b => a.amount < b.amount) bigger
      let u := sorted.head!
      .ok (chosen0 ++ [u], sum0 + u.amount)

/-- The all-zero txid placeholder input used by the size stubs. -/
def stubTxIn : TxIn :=
  { previous_output := { txid := List.replicate 32 0, vout := 0 },
    script_sig := [], witness := [], sequence := SEQ_RBF }

/-- First output of a transaction; the source indexes output[0] (panic on
empty never happens for the commit transactions built here). -/
def txOut0 (t : Transaction) : TxOut := t.output.headD default

/-- The synthetic required UTXO referencing output 0 of prev_tx. -/
def requiredUtxoOf : Option TxWithId → Option UTXO
  | none => none
  | some t =>
      some { tx_id := t.id, vout := 0,
             script_pubkey := (txOut0 t.tx).script_pubkey, address := none,
             amount := (txOut0 t.tx).value, confirmations := 0,
             spendable := true, solvable := true }

/-- Inputs built from the chosen UTXOs: empty script_sig, empty witness,
RBF sequence. -/
def mkInputs (chosen : List UTXO) : List TxIn :=
  chosen.map (fun u =>
    { previous_output := { txid := u.tx_id, vout := u.vout },
      script_sig := [], witness := [], sequence := SEQ_RBF })

/-- One iteration of the fee-convergence loop of build_commit_transaction. -/
inductive CommitStepRes where
  | failed (e : String)
  | done (t : Transaction)
  | again (s : Nat)
deriving DecidableEq

/-- The recipient-only output list of a commit transaction. -/
def commitOutputsSingle (recipient : Address) (output_value : Nat) : List TxOut :=
  [{ value := output_value, script_pubkey := recipient.script_pubkey }]

/-- The recipient-plus-change output list of a commit transaction. -/
def commitOutputsChange (recipient change_address : Address)
    (output_value change : Nat) : List TxOut :=
  [{ value := output_value, script_pubkey := recipient.script_pubkey },
   { value := change, script_pubkey := change_address.script_pubkey }]

/-- The body of the build_commit_transaction loop at a given last_size:
choose UTXOs for output_value + fee(last_size); if the change — computed
by the source's unchecked u64 subtraction sum - input_total, which wraps
when sum < input_total (reachable when a required UTXO is present) — is
below REVEAL_OUTPUT_AMOUNT, return a single-output transaction directly
(no further size measurement), otherwise build the two-output transaction
and iterate until the measured size reaches a fixed point. -/
def commitStep (getSize : SizeFn) (fee : FeeFn) (required_utxo : Option UTXO)
    (utxos : List UTXO) (recipient change_address : Address)
    (output_value : Nat) (last_size : Nat) : CommitStepRes :=
  match choose_utxos required_utxo utxos (output_value + fee last_size) with
  | .error e => .failed e
  | .ok cs =>
      if REVEAL_OUTPUT_AMOUNT ≤ u64sub cs.2 (output_value + fee last_size) then
        if getSize (mkInputs cs.1)
            (commitOutputsChange recipient change_address output_value
              (u64sub cs.2 (output_value + fee last_size))) none none
            == last_size then
          .done { version := 2, lock_time := 0, input := mkInputs cs.1,
                  output := commitOutputsChange recipient change_address
                    output_value (u64sub cs.2 (output_value + fee last_size)) }
        else
          .again (getSize (mkInputs cs.1)
            (commitOutputsChange recipient change_address output_value
              (u64sub cs.2 (output_value + fee last_size))) none none)
      else
        .done { version := 2, lock_time := 0, input := mkInputs cs.1,
                output := commitOutputsSingle recipient output_value }

/-- The build_commit_transaction loop with fuel (the Rust loop is
unbounded; none models fuel exhaustion, never an outcome of the source). -/
def commitLoop (getSize : SizeFn) (fee : FeeFn) (required_utxo : Option UTXO)
    (utxos : List UTXO) (recipient change_address : Address)
    (output_value : Nat) : Nat → Nat → Option (Outcome Transaction)
  | 0, _ => none
  | fuel + 1, last_size =>
      match commitStep getSize fee required_utxo utxos recipient change_address
          output_value last_size with
      | .failed e => some (.err e)
      | .done t => some (.ok t)
      | .again s =>
          commitLoop getSize fee required_utxo utxos recipient change_address
            output_value fuel s

/-- The pool actually handed to choose_utxos by build_commit_transaction:
any entry matching the required outpoint is removed (utxos.retain). -/
def commitPool (required_utxo : Option UTXO) (utxos : List UTXO) : List UTXO :=
  match required_utxo with
  | some req => utxos.filter (fun u => !(u.vout == req.vout && u.tx_id == req.tx_id))
  | none => utxos

/-- Mirrors build_commit_transaction: synthesize the required UTXO from
prev_tx, drop any pool entry with the same outpoint, and run the
fee-convergence loop starting from the one-input/one-output stub size. -/
def build_commit_transaction (getSize : SizeFn) (fee : FeeFn)
    (prev_tx : Option TxWithId) (utxos : List UTXO)
    (recipient change_address : Address) (output_value : Nat)
    (fuel : Nat) : Option (Outcome Transaction) :=
  let size := getSize [stubTxIn]
      [{ value := output_value, script_pubkey := recipient.script_pubkey }] none none
  let required_utxo := requiredUtxoOf prev_tx
  commitLoop getSize fee required_utxo (commitPool required_utxo utxos)
    recipient change_address output_value fuel size

/-- Mirrors build_reveal_transaction: one-input/one-output skeleton, vsize
with the dummy witness, then the InputTooSmall guard. -/
def build_reveal_transaction (getSize : SizeFn) (fee : FeeFn)
    (input_utxo : TxOut) (input_txid : Bytes) (input_vout : Nat)
    (recipient : Address) (output_value : Nat)
    (reveal_script control_block : Bytes) : Except String Transaction :=
  let outputs : List TxOut :=
    [{ value := output_value, script_pubkey := recipient.script_pubkey }]
  let inputs : List TxIn :=
    [{ previous_output := { txid := input_txid, vout := input_vout },
       script_sig := [], witness := [], sequence := SEQ_RBF }]
  let size := getSize inputs outputs (some reveal_script) (some control_block)
  let feeAmt := fee size
  let input_total := output_value + feeAmt
  if input_utxo.value < REVEAL_OUTPUT_AMOUNT ∨ input_utxo.value < input_total then
    .error "input UTXO not big enough"
  else
    .ok { version := 2, lock_time := 0, input := inputs, output := outputs }

/-- Environment for create_inscription_transactions.  The cryptographic
and encoding operations that live in the bitcoin library are oracles:
revealScriptOf nonce is the full reveal script assembled for that nonce
(the fixed tag/signature/pubkey envelope, push_int nonce, the body chunks
and OP_ENDIF), controlBlockOf gives the serialized control block of the
single-leaf taproot tree for a script, commitAddrOf the P2TR commit
address, recoveryAddrOf the address recomputed from the tweaked key in
the final assertion, txidOf the byte array Txid::as_raw_hash gives, and
signatureOf the Schnorr signature produced for the reveal sighash.
feeReveal models ceil(size * reveal_fee_rate); the source computes
commit_value = ceil(size * reveal_fee_rate + reveal_value), which equals
feeReveal size + reveal_value because reveal_value is an integer. -/
structure InscriptionEnv where
  getSize : SizeFn
  feeCommit : FeeFn
  feeReveal : FeeFn
  revealScriptOf : Nat → Bytes
  controlBlockOf : Bytes → Bytes
  commitAddrOf : Bytes → Address
  recoveryAddrOf : Bytes → Address
  txidOf : Transaction → Bytes
  signatureOf : Transaction → Bytes

/-- Push the witness items onto input 0, as sighash_cache.witness_mut(0)
followed by the three pushes does. -/
def addWitness0 (t : Transaction) (w : List Bytes) : Transaction :=
  { t with input := match t.input with
      | [] => []
      | i :: rest => { i with witness := i.witness ++ w } :: rest }

/-- One nonce attempt of the create_inscription_transactions loop. -/
inductive CreateStepRes where
  | finished (r : Outcome (Transaction × TxWithId))
  | fuelOut
  | retry

/-- The commit output value at a given nonce: the reveal fee for the
measured dummy-witness reveal size plus the reveal value (the source
computes ceil(size * reveal_fee_rate + reveal_value), which equals this
because reveal_value is an integer). -/
def commitValueOf (env : InscriptionEnv) (recipient : Address)
    (reveal_value : Nat) (nonce : Nat) : Nat :=
  env.feeReveal (env.getSize [stubTxIn]
      [{ value := reveal_value, script_pubkey := recipient.script_pubkey }]
      (some (env.revealScriptOf nonce))
      (some (env.controlBlockOf (env.revealScriptOf nonce)))) + reveal_value

/-- The body of the nonce loop: build script, control block and commit
address for this nonce, compute commit_value from the measured reveal
size, build the commit and reveal transactions, and test the txid against
the wanted byte pattern; on a hit, sign, attach the three-item witness
and check the commit address assertion (the source attaches the witness
before the assertion; a mismatch aborts either way, so the result is
identical). -/
def createStep (env : InscriptionEnv) (prev_tx : Option TxWithId)
    (utxos : List UTXO) (recipient : Address) (reveal_value : Nat)
    (txPfx : Bytes) (commitFuel : Nat) (nonce : Nat) : CreateStepRes :=
  match build_commit_transaction env.getSize env.feeCommit prev_tx utxos
      (env.commitAddrOf (env.revealScriptOf nonce)) recipient
      (commitValueOf env recipient reveal_value nonce) commitFuel with
  | none => .fuelOut
  | some (.err e) => .finished (.err e)
  | some (.fatal m) => .finished (.fatal m)
  | some (.ok unsigned_commit_tx) =>
      match build_reveal_transaction env.getSize env.feeReveal
          (txOut0 unsigned_commit_tx) (env.txidOf unsigned_commit_tx) 0
          recipient reveal_value (env.revealScriptOf nonce)
          (env.controlBlockOf (env.revealScriptOf nonce)) with
      | .error e => .finished (.err e)
      | .ok reveal_tx =>
          if startsWith txPfx (env.txidOf reveal_tx) then
            if env.recoveryAddrOf (env.revealScriptOf nonce)
                == env.commitAddrOf (env.revealScriptOf nonce) then
              .finished (.ok (unsigned_commit_tx,
                { id := env.txidOf reveal_tx,
                  tx := addWitness0 reveal_tx
                    [env.signatureOf reveal_tx, env.revealScriptOf nonce,
                     env.controlBlockOf (env.revealScriptOf nonce)] }))
            else
              .finished
                (.fatal "assertion failed: inscription commit address mismatch")
          else .retry

/-- Mirrors create_inscription_transactions: grind the nonce until the
reveal txid byte array begins with the wanted bytes (fuel bounds the
unbounded search; none is fuel exhaustion, never an outcome of the
source). -/
def create_inscription_transactions (env : InscriptionEnv)
    (prev_tx : Option TxWithId) (utxos : List UTXO) (recipient : Address)
    (reveal_value : Nat) (txPfx : Bytes) (commitFuel : Nat) :
    Nat → Nat → Option (Outcome (Transaction × TxWithId))
  | 0, _ => none
  | fuel + 1, nonce =>
      match createStep env prev_tx utxos recipient reveal_value txPfx
          commitFuel nonce with
      | .finished r => some r
      | .fuelOut => none
      | .retry =>
          create_inscription_transactions env prev_tx utxos recipient
            reveal_value txPfx commitFuel fuel (nonce + 1)

/-! ## Fork manager (crates/primitives/src/fork/manager.rs)

SpecId is a Nat; migration handlers are pure functions spec -> Result. -/

/-- Run the migration handlers in order; the source's for-loop with the
question-mark operator stops at the first error.  Also counts how many
handlers were invoked, to make non-invocation of later ones observable. -/
def runHandlers : List (Nat → Except String Unit) → Nat → Except String Unit × Nat
  | [], _ => (.ok (), 0)
  | h :: hs, s =>
      match h s with
      | .error e => (.error e, 1)
      | .ok _ =>
          let r := runHandlers hs s
          (r.1, r.2 + 1)

/-- The fork manager state. -/
structure ForkManager where
  active_spec : Nat
  specs : List (Nat × Nat)
  migration_handlers : List (Nat → Except String Unit)

/-- Mirrors ForkManager::new: drop specs already active or activated at or
below the current height, sort ascending by activation height (Rust's
stable sort_by_key), start with no handlers. -/
def ForkManager.new (current_l2_height : Nat) (active_spec : Nat)
    (specs : List (Nat × Nat)) : ForkManager :=
  let kept := specs.filter
    (fun p => p.1 != active_spec && decide (current_l2_height < p.2))
  { active_spec := active_spec,
    specs := stableSort (fun a b => a.2 < b.2) kept,
    migration_handlers := [] }

/-- Mirrors ForkManager::register_handler. -/
def ForkManager.register_handler (m : ForkManager)
    (h : Nat → Except String Unit) : ForkManager :=
  { m with migration_handlers := m.migration_handlers ++ [h] }

/-- Mirrors Fork::active_fork. -/
def ForkManager.active_fork (m : ForkManager) : Nat := m.active_spec

/-- Mirrors Fork::register_block: when the pending head activates exactly
at this height, set the active spec, run every handler (errors propagate
before the pop), then pop the head. -/
def ForkManager.register_block (m : ForkManager) (height : Nat) :
    Except String Unit × ForkManager :=
  match m.specs with
  | [] => (.ok (), m)
  | (new_spec, activation_block_height) :: rest =>
      if height = activation_block_height then
        let m1 : ForkManager := { m with active_spec := new_spec }
        match runHandlers m1.migration_handlers m1.active_spec with
        | (.ok _, _) => (.ok (), { m1 with specs := rest })
        | (.error e, _) => (.error e, m1)
      else (.ok (), m)

/-- Fold register_block over a list of heights, keeping the final state
(the STF replay panics on a handler error; with no handlers registered
register_block never errors). -/
def registerAll (m : ForkManager) (hs : List Nat) : ForkManager :=
  hs.foldl (fun m h => (m.register_block h).2) m

/-- Mirrors fork_from_block_number's linear scan over forks[1..]. -/
def forkFromGo (fork : Nat) : List (Nat × Nat) → Nat → Nat
  | [], _ => fork
  | (spec_id, activation_block) :: rest, block_number =>
      forkFromGo (if block_number ≥ activation_block then spec_id else fork)
        rest block_number

/-- Mirrors fork_from_block_number: the spec of the last schedule entry
whose activation height is at most block_number, defaulting to the first
entry.  The source indexes forks[0] and panics on an empty schedule; the
empty case is modelled as 0 and is excluded by hypothesis wherever used. -/
def fork_from_block_number (forks : List (Nat × Nat)) (block_number : Nat) : Nat :=
  match forks with
  | [] => 0
  | (spec, _) :: rest => forkFromGo spec rest block_number

/-! ## Soft-confirmation STF core (sov-modules-stf-blueprint/src/lib.rs)

State roots, storage handles, working sets, checkpoints, witnesses and
receipt payloads are opaque tokens (Nat).  The runtime, storage, hasher
and signature capabilities are oracle functions collected in StfEnv; the
claims are proved for every instantiation. -/

/-- A signed soft confirmation batch (SignedSoftConfirmationBatch). -/
structure SoftConfirmation where
  da_slot_height : Nat
  da_slot_hash : Bytes
  da_slot_txs_commitment : Bytes
  prev_hash : Bytes
  hash : Bytes
  txs : List Bytes
  deposit_data : List Bytes
  l1_fee_rate : Nat
  timestamp : Nat
  sequencer_pub_key : Bytes
  signature : Bytes
deriving DecidableEq

/-- The unsigned view re-serialized in End (UnsignedSoftConfirmationBatch). -/
structure UnsignedSoftConfirmation where
  da_slot_height : Nat
  da_slot_hash : Bytes
  da_slot_txs_commitment : Bytes
  txs : List Bytes
  deposit_data : List Bytes
  l1_fee_rate : Nat
  timestamp : Nat
deriving DecidableEq

/-- The unsigned fields of a signed soft confirmation, in source order. -/
def unsignedOf (sc : SoftConfirmation) : UnsignedSoftConfirmation :=
  { da_slot_height := sc.da_slot_height, da_slot_hash := sc.da_slot_hash,
    da_slot_txs_commitment := sc.da_slot_txs_commitment, txs := sc.txs,
    deposit_data := sc.deposit_data, l1_fee_rate := sc.l1_fee_rate,
    timestamp := sc.timestamp }

/-- A DA block header, reduced to the accessors the core uses. -/
structure DaBlockHeader where
  hash : Bytes
  prev_hash : Bytes
  txs_commitment : Bytes
  height : Nat
deriving DecidableEq

/-- The slot result returned per applied soft confirmation. -/
structure SlotResultM where
  state_root : Nat
  change_set : Nat
  batch_receipts : List Nat
  witness : Nat
  state_diff : List (Bytes × Option Bytes)
deriving DecidableEq

/-- Oracle capabilities of the STF blueprint: hasher and signature scheme,
borsh serialization of the unsigned batch, checkpoint creation, the
begin/apply/end runtime hooks and the storage state update.  Tokens are
Nat; beginHookInner and applyTxs also receive the current spec. -/
structure StfEnv where
  hasher : Bytes → Bytes
  serializeUnsigned : UnsignedSoftConfirmation → Bytes
  verifySig : Bytes → Bytes → Bytes → Bool
  initCheckpoint : Nat → Nat → Nat
  beginHookInner : Nat → SoftConfirmation → Nat → Except String Nat
  applyTxs : Nat → List Bytes → Nat → Nat × List Nat
  endInner : SoftConfirmation → List Nat → Nat → Except String (Nat × Nat)
  computeStateUpdate : Nat → Nat → Nat × Nat × List (Bytes × Option Bytes)

/-- Mirrors StfBlueprint::apply_soft_confirmation.  Begin: the three
assert_eq checks (panics on mismatch), checkpoint creation and the begin
hook; a begin-hook error reverts the working set and returns the empty
slot result with the pre-state root.  Apply: dispatch the raw txs.  End:
re-serialize the unsigned view, assert the claimed hash and the sequencer
signature (panics on mismatch), then run the end hook (whose error is
unwrapped, i.e. panics).  Finalize: compute the state update and return
the slot result. -/
def apply_soft_confirmation (env : StfEnv) (current_spec : Nat)
    (sequencer_public_key : Bytes) (pre_state_root : Nat) (pre_state : Nat)
    (witness : Nat) (slot_header : DaBlockHeader) (sc : SoftConfirmation) :
    Outcome SlotResultM :=
  if sc.sequencer_pub_key ≠ sequencer_public_key then
    .fatal "Sequencer public key must match"
  else if sc.da_slot_hash ≠ slot_header.hash then
    .fatal "DA slot hashes must match"
  else if sc.da_slot_txs_commitment ≠ slot_header.txs_commitment then
    .fatal "DA slot hashes must match"
  else
    let checkpoint := env.initCheckpoint pre_state witness
    match env.beginHookInner current_spec sc checkpoint with
    | .error _ =>
        .ok { state_root := pre_state_root, change_set := pre_state,
              batch_receipts := [], witness := 0, state_diff := [] }
    | .ok ws =>
        let applied := env.applyTxs current_spec sc.txs ws
        let raw := env.serializeUnsigned (unsignedOf sc)
        if sc.hash ≠ env.hasher raw then
          .fatal "Soft confirmation hashes must match"
        else if ¬ env.verifySig sequencer_public_key raw sc.signature then
          .fatal "Signature verification must succeed"
        else
          match env.endInner sc applied.2 applied.1 with
          | .error _ => .fatal "end_soft_confirmation_inner must succeed"
          | .ok (batch_receipt, checkpoint2) =>
              let upd := env.computeStateUpdate pre_state checkpoint2
              .ok { state_root := upd.1, change_set := pre_state,
                    batch_receipts := [batch_receipt], witness := upd.2.1,
                    state_diff := upd.2.2 }

/-! ## Merkle roots

The replay computes MerkleTree::<Sha256>::from_leaves(hashes).root() from
the rs_merkle library.  rs_merkle's default Hasher::concat_and_hash
hashes a node with its right sibling when one exists and otherwise
propagates the node to the upper layer unchanged; this promotion rule is
modelled here.  The duplicate-last (Bitcoin-style) padding rule named by
the spec is defined alongside for comparison. -/

/-- One rs_merkle tree layer: pair up and hash; a trailing lone node is
promoted unchanged. -/
def merkleLevelRS : List Bytes → List Bytes
  | [] => []
  | [x] => [x]
  | x :: y :: rest => sha256 (x ++ y) :: merkleLevelRS rest

/-- Collapse layers to the root (fuel-structured; the leaf count bounds
the number of layers). -/
def merkleRootGoRS : Nat → List Bytes → Bytes
  | _, [] => []
  | _, [x] => x
  | 0, _ :: _ :: _ => []
  | fuel + 1, x :: y :: rest => merkleRootGoRS fuel (merkleLevelRS (x :: y :: rest))

/-- MerkleTree::<Sha256>::from_leaves(leaves).root(): none on no leaves,
otherwise the rs_merkle root with lone-node promotion. -/
def rs_merkle_root (leaves : List Bytes) : Option Bytes :=
  match leaves with
  | [] => none
  | l => some (merkleRootGoRS l.length l)

/-- One duplicate-last tree layer: a trailing lone node is hashed with a
copy of itself (the padding rule the spec describes). -/
def merkleLevelDup : List Bytes → List Bytes
  | [] => []
  | [x] => [sha256 (x ++ x)]
  | x :: y :: rest => sha256 (x ++ y) :: merkleLevelDup rest

/-- Collapse duplicate-last layers to the root. -/
def merkleRootGoDup : Nat → List Bytes → Bytes
  | _, [] => []
  | _, [x] => x
  | 0, _ :: _ :: _ => []
  | fuel + 1, x :: y :: rest => merkleRootGoDup fuel (merkleLevelDup (x :: y :: rest))

/-- The duplicate-last (Bitcoin-style padding) SHA-256 Merkle root over
the leaves, as the spec describes the commitment check. -/
def dup_merkle_root (leaves : List Bytes) : Option Bytes :=
  match leaves with
  | [] => none
  | l => some (merkleRootGoDup l.length l)

/-! ## Commitment-range replay
(apply_soft_confirmations_from_sequencer_commitments) -/

/-- A sequencer commitment. -/
structure SequencerCommitment where
  merkle_root : Bytes
  l2_start_block_number : Nat
  l2_end_block_number : Nat
deriving DecidableEq

/-- A DA blob as the replay sees it: sender address and verified data. -/
structure BlobTx where
  sender : Bytes
  verified_data : Bytes
deriving DecidableEq

/-- Decoded DaData relevant to the replay: a sequencer commitment or
anything else (zk proofs, forced transactions), which is ignored. -/
inductive DaDataM where
  | sequencerCommitment (c : SequencerCommitment)
  | otherVariant
deriving DecidableEq

/-- Lexicographic byte-string order. -/
def bytesLt : Bytes → Bytes → Bool
  | [], [] => false
  | [], _ :: _ => true
  | _ :: _, [] => false
  | a :: as, b :: bs => a < b || (a == b && bytesLt as bs)

/-- Strict order on sequencer commitments.  Modelled from the spec: the
derived Ord of SequencerCommitment is outside the provided sources; the
spec gives the total order over (l2_start, l2_end, merkle_root). -/
def commitmentLt (a b : SequencerCommitment) : Bool :=
  a.l2_start_block_number < b.l2_start_block_number
  || (a.l2_start_block_number == b.l2_start_block_number
      && (a.l2_end_block_number < b.l2_end_block_number
          || (a.l2_end_block_number == b.l2_end_block_number
              && bytesLt a.merkle_root b.merkle_root)))

/-- Mutable state carried across commitments by the replay. -/
structure ReplayState where
  current_state_root : Nat
  previous_batch_hash : Bytes
  last_commitment_end_height : Option Nat
  state_diff : List (Bytes × Option Bytes)
deriving DecidableEq

/-- The DA-header correspondence walk over the soft confirmations after
the first one: a confirmation either matches the current header (heights
and chained previous batch hash are asserted) or the header index
advances once, the header chain link is asserted, and the confirmation
must match the new header.  Returns the final header index and the last
confirmation hash. -/
def walkConfs (da_block_headers : List DaBlockHeader) :
    List SoftConfirmation → Nat → Nat → Bytes → Outcome (Nat × Bytes)
  | [], index_headers, _, prev => .ok (index_headers, prev)
  | sc :: rest, index_headers, current_da_height, prev =>
      match da_block_headers.get? index_headers with
      | none => .fatal "index out of bounds"
      | some h =>
          if sc.da_slot_hash = h.hash then
            if sc.da_slot_height ≠ h.height then
              .fatal "Soft confirmation DA slot height must match DA block header height"
            else if sc.prev_hash ≠ prev then
              .fatal "Soft confirmation previous hash must match the hash of the block before"
            else walkConfs da_block_headers rest index_headers current_da_height sc.hash
          else
            match da_block_headers.get? (index_headers + 1) with
            | none => .fatal "index out of bounds"
            | some h' =>
                if h'.height ≠ current_da_height + 1 then
                  .fatal "DA block headers must be in order"
                else if h.hash ≠ h'.prev_hash then
                  .fatal "DA block headers must be in order"
                else if sc.da_slot_hash ≠ h'.hash then
                  .fatal "Soft confirmation DA slot hash must match DA block header hash"
                else if sc.da_slot_height ≠ h'.height then
                  .fatal "Soft confirmation DA slot height must match DA block header height"
                else if sc.prev_hash ≠ prev then
                  .fatal "Soft confirmation previous hash must match the hash of the block before"
                else walkConfs da_block_headers rest (index_headers + 1)
                  (current_da_height + 1) sc.hash

/-- The pre-Merkle stages of one commitment: the sequentiality assertion,
the first-confirmation assertions against headers[0], the header walk and
the all-headers-justified assertion.  Returns the updated previous batch
hash (the last confirmation hash). -/
def commitmentPreStage (commitment : SequencerCommitment)
    (soft_confirmations : List SoftConfirmation)
    (da_block_headers : List DaBlockHeader)
    (previous_batch_hash : Bytes) (last_commitment_end_height : Option Nat) :
    Outcome Bytes :=
  let seqOk : Bool := match last_commitment_end_height with
    | some end_height => end_height + 1 == commitment.l2_start_block_number
    | none => true
  if ¬ seqOk then .fatal "Sequencer commitments must be sequential"
  else
    match da_block_headers.head?, soft_confirmations.head? with
    | none, _ => .fatal "index out of bounds"
    | some _, none => .fatal "index out of bounds"
    | some h0, some c0 =>
        if c0.prev_hash ≠ previous_batch_hash then
          .fatal "Soft confirmation previous hash must match the hash of the block before"
        else if c0.da_slot_hash ≠ h0.hash then
          .fatal "Soft confirmation DA slot hash must match DA block header hash"
        else if c0.da_slot_height ≠ h0.height then
          .fatal "Soft confirmation DA slot height must match DA block header height"
        else
          match walkConfs da_block_headers soft_confirmations.tail 0 h0.height c0.hash with
          | .fatal m => .fatal m
          | .err e => .err e
          | .ok (index_headers, prev) =>
              if index_headers ≠ da_block_headers.length - 1 then
                .fatal "All DA headers must be checked"
              else .ok prev

/-- The replay loop over (confirmation, witness) pairs: advance the header
iterator when the DA slot height moves on, apply the soft confirmation,
extend the cumulative diff, register the block with the fork manager
(panicking on a handler error) and move to the next L2 height and spec. -/
def replayGo (env : StfEnv) (sequencer_public_key : Bytes) (pre_state : Nat) :
    List (SoftConfirmation × Nat) → DaBlockHeader → List DaBlockHeader →
    Nat → Nat → ForkManager → Nat → List (Bytes × Option Bytes) →
    Outcome (Nat × List (Bytes × Option Bytes) × Nat)
  | [], _, _, l2_height, _, _, root, diff => .ok (root, diff, l2_height)
  | (sc, wit) :: more, hdr, hdrs, l2_height, current_spec, fm, root, diff =>
      let step := fun (hdr : DaBlockHeader) (hdrs : List DaBlockHeader) =>
        match apply_soft_confirmation env current_spec sequencer_public_key
            root pre_state wit hdr sc with
        | .fatal m => .fatal m
        | .err e => .err e
        | .ok r =>
            let rb := fm.register_block l2_height
            match rb.1 with
            | .error e => .fatal ("Fork transition failed " ++ e)
            | .ok _ =>
                replayGo env sequencer_public_key pre_state more hdr hdrs
                  (l2_height + 1) (rb.2.active_fork) rb.2 r.state_root
                  (diff ++ r.state_diff)
      if sc.da_slot_height ≠ hdr.height then
        match hdrs with
        | [] => .fatal "called Option unwrap on a None value"
        | hdr' :: rest => step hdr' rest
      else step hdr hdrs

/-- One iteration of the commitment loop: the pre-Merkle stages, the
Merkle root assertion against the commitment, then the replay of the
confirmations with a local fork manager, and the end-height assertion. -/
def processCommitment (env : StfEnv) (sequencer_public_key : Bytes)
    (pre_state : Nat) (forks : List (Nat × Nat))
    (commitment : SequencerCommitment)
    (soft_confirmations : List SoftConfirmation)
    (da_block_headers : List DaBlockHeader) (witnesses : List Nat)
    (st : ReplayState) : Outcome ReplayState :=
  match commitmentPreStage commitment soft_confirmations da_block_headers
      st.previous_batch_hash st.last_commitment_end_height with
  | .fatal m => .fatal m
  | .err e => .err e
  | .ok prev =>
      let soft_confirmation_hashes := soft_confirmations.map (fun sc => sc.hash)
      if rs_merkle_root soft_confirmation_hashes
          ≠ some commitment.merkle_root then
        .fatal "Invalid merkle root"
      else
        match da_block_headers with
        | [] => .fatal "called Option unwrap on a None value"
        | hdr :: hdrs =>
            if soft_confirmations.length ≠ witnesses.length then
              .fatal "itertools: .zip_eq() reached end of one iterator before the other"
            else
              let l2_height := commitment.l2_start_block_number
              let current_spec := fork_from_block_number forks l2_height
              let fm := ForkManager.new l2_height current_spec forks
              match replayGo env sequencer_public_key pre_state
                  (soft_confirmations.zip witnesses) hdr hdrs l2_height
                  current_spec fm st.current_state_root st.state_diff with
              | .fatal m => .fatal m
              | .err e => .err e
              | .ok (root, diff, l2_final) =>
                  if commitment.l2_end_block_number ≠ l2_final - 1 then
                    .fatal "assertion failed: l2_end_block_number == l2_height - 1"
                  else
                    .ok { current_state_root := root,
                          previous_batch_hash := prev,
                          last_commitment_end_height :=
                            some commitment.l2_end_block_number,
                          state_diff := diff }

/-- Extract sequencer commitments from the DA blobs: keep blobs from the
sequencer DA key whose data decodes to the SequencerCommitment variant. -/
def extractCommitments (decode : Bytes → Option DaDataM)
    (sequencer_da_public_key : Bytes) (da_data : List BlobTx) :
    List SequencerCommitment :=
  da_data.foldl (fun acc blob =>
    if blob.sender = sequencer_da_public_key then
      match decode blob.verified_data with
      | some (.sequencerCommitment c) => acc ++ [c]
      | _ => acc
    else acc) []

/-- Fold processCommitment over the zipped queues. -/
def processAll (env : StfEnv) (sequencer_public_key : Bytes) (pre_state : Nat)
    (forks : List (Nat × Nat)) :
    List (SequencerCommitment × List SoftConfirmation × List DaBlockHeader × List Nat) →
    ReplayState → Outcome ReplayState
  | [], st => .ok st
  | (c, confs, hdrs, wits) :: rest, st =>
      match processCommitment env sequencer_public_key pre_state forks c confs
          hdrs wits st with
      | .fatal m => .fatal m
      | .err e => .err e
      | .ok st' => processAll env sequencer_public_key pre_state forks rest st'

/-- Mirrors apply_soft_confirmations_from_sequencer_commitments: extract
and sort the commitments, slice the requested range, pair each with its
queue of confirmations, headers and witnesses (zip_eq panics when the
lengths disagree), then fold the per-commitment pipeline and return the
final root and cumulative diff. -/
def apply_soft_confirmations_from_sequencer_commitments (env : StfEnv)
    (decode : Bytes → Option DaDataM)
    (sequencer_public_key sequencer_da_public_key : Bytes)
    (initial_state_root : Nat) (initial_batch_hash : Bytes) (pre_state : Nat)
    (da_data : List BlobTx) (rangeLo rangeHi : Nat)
    (witnesses : List (List Nat)) (slot_headers : List (List DaBlockHeader))
    (soft_confirmations : List (List SoftConfirmation))
    (forks : List (Nat × Nat)) :
    Outcome (Nat × List (Bytes × Option Bytes)) :=
  let commitments := extractCommitments decode sequencer_da_public_key da_data
  let sorted := stableSort commitmentLt commitments
  let slice := (sorted.drop rangeLo).take (rangeHi - rangeLo + 1)
  if slice.length ≠ soft_confirmations.length
      ∨ slice.length ≠ slot_headers.length
      ∨ slice.length ≠ witnesses.length then
    .fatal "itertools: .zip_eq() reached end of one iterator before the other"
  else
    let quads := (slice.zip (soft_confirmations.zip
        (slot_headers.zip witnesses))).map
      (fun q => (q.1, q.2.1, q.2.2.1, q.2.2.2))
    match processAll env sequencer_public_key pre_state forks quads
        { current_state_root := initial_state_root,
          previous_batch_hash := initial_batch_hash,
          last_commitment_end_height := none, state_diff := [] } with
    | .fatal m => .fatal m
    | .err e => .err e
    | .ok st => .ok (st.current_state_root, st.state_diff)

/-! ## Specification-side definitions and concrete fixtures -/

/-- The first element of minimal amount, i.e. the smallest UTXO with ties
broken by the stable order of the input list (the selector optimality
target stated by the spec). -/
def firstMinByAmount : List UTXO → Option UTXO
  | [] => none
  | x :: xs =>
      match firstMinByAmount xs with
      | none => some x
      | some m => some (if m.amount < x.amount then m else x)

instance : Inhabited Transaction := ⟨⟨0, 0, [], []⟩⟩

instance : Inhabited TxWithId := ⟨⟨[], default⟩⟩

/-- A 5-sat UTXO used to exhibit double selection of the required outpoint. -/
def uDup : UTXO :=
  { tx_id := [17], vout := 0, script_pubkey := [], address := none,
    amount := 5, confirmations := 1, spendable := true, solvable := true }

/-- A 7-sat UTXO for the zero-target selector counterexample. -/
def uSeven : UTXO :=
  { tx_id := [19], vout := 0, script_pubkey := [], address := none,
    amount := 7, confirmations := 1, spendable := true, solvable := true }

/-- Required UTXO for the selector-exclusion witness. -/
def uReq : UTXO :=
  { tx_id := [1], vout := 0, script_pubkey := [], address := none,
    amount := 5, confirmations := 1, spendable := true, solvable := true }

/-- Pool UTXO (distinct outpoint) for the selector-exclusion witness. -/
def uPool : UTXO :=
  { tx_id := [2], vout := 0, script_pubkey := [], address := none,
    amount := 10, confirmations := 1, spendable := true, solvable := true }

/-- Pool UTXO for the smallest-sufficient selector witness. -/
def uBig : UTXO :=
  { tx_id := [3], vout := 1, script_pubkey := [], address := none,
    amount := 1000000, confirmations := 1, spendable := true, solvable := true }

/-- Second pool UTXO for the smallest-sufficient selector witness. -/
def uMid : UTXO :=
  { tx_id := [4], vout := 0, script_pubkey := [], address := none,
    amount := 100000, confirmations := 1, spendable := true, solvable := true }

/-- STF environment whose begin hook always errors; the remaining
capabilities are trivial. -/
def stfEnvBeginErr : StfEnv :=
  { hasher := fun b => b,
    serializeUnsigned := fun u => [u.timestamp],
    verifySig := fun _ _ _ => true,
    initCheckpoint := fun s w => s + w,
    beginHookInner := fun _ _ _ => .error "hook failed",
    applyTxs := fun _ _ ws => (ws, []),
    endInner := fun _ rs ws => .ok (rs.length, ws),
    computeStateUpdate := fun _ cp => (cp, 0, []) }

/-- A soft confirmation consistent with cexHeader and sequencer key 4. -/
def scGood : SoftConfirmation :=
  { da_slot_height := 1, da_slot_hash := [5], da_slot_txs_commitment := [6],
    prev_hash := [9], hash := [10], txs := [], deposit_data := [],
    l1_fee_rate := 0, timestamp := 0, sequencer_pub_key := [4],
    signature := [] }

/-- The DA header scGood refers to. -/
def cexHeader : DaBlockHeader :=
  { hash := [5], prev_hash := [], txs_commitment := [6], height := 1 }

/-- scGood with a sequencer public key that does not match [4]. -/
def scBadKey : SoftConfirmation :=
  { scGood with sequencer_pub_key := [99] }

/-- Trivial STF environment whose begin hook succeeds and whose hasher,
serializer and verifier accept the fixtures used in the replay
counterexample: a confirmation whose timestamp is t has hash 32 copies of
t. -/
def stfEnvOk : StfEnv :=
  { hasher := fun b => List.replicate 32 (b.headD 0),
    serializeUnsigned := fun u => [u.timestamp],
    verifySig := fun _ _ _ => true,
    initCheckpoint := fun s w => s + w,
    beginHookInner := fun _ _ cp => .ok cp,
    applyTxs := fun _ _ ws => (ws, []),
    endInner := fun _ rs ws => .ok (rs.length, ws),
    computeStateUpdate := fun _ cp => (cp, 0, []) }

/-- The i-th fixture soft confirmation of the three-leaf Merkle
counterexample: all three live in DA slot 1 under mrHeader, are hash
chained from previous batch hash [9], and confirmation i has hash
32 copies of i (stfEnvOk reproduces it from the timestamp). -/
def mrConf (i : Nat) : SoftConfirmation :=
  { da_slot_height := 1, da_slot_hash := [5], da_slot_txs_commitment := [6],
    prev_hash := if i = 1 then [9] else List.replicate 32 (i - 1),
    hash := List.replicate 32 i, txs := [], deposit_data := [],
    l1_fee_rate := 0, timestamp := i, sequencer_pub_key := [4],
    signature := [] }

/-- The single DA header of the Merkle counterexample. -/
def mrHeader : DaBlockHeader :=
  { hash := [5], prev_hash := [], txs_commitment := [6], height := 1 }

/-- The three Merkle leaves (the fixture confirmation hashes). -/
def mrLeaves : List Bytes :=
  [List.replicate 32 1, List.replicate 32 2, List.replicate 32 3]

/-- The commitment of the Merkle counterexample: its claimed root is the
rs_merkle (promotion-rule) root of the three leaves. -/
def mrCommitment : SequencerCommitment :=
  { merkle_root := (rs_merkle_root mrLeaves).getD [],
    l2_start_block_number := 1, l2_end_block_number := 3 }

/-- Initial replay state of the Merkle counterexample. -/
def mrState : ReplayState :=
  { current_state_root := 0, previous_batch_hash := [9],
    last_commitment_end_height := none, state_diff := [] }

/-- A commitment whose claimed root does not match its single
confirmation hash (Merkle-mismatch witness). -/
def mrBadCommitment : SequencerCommitment :=
  { merkle_root := [0], l2_start_block_number := 1, l2_end_block_number := 1 }

/-- Inscription environment for the PoW witness: every oracle is a small
constant function, the txid starts with the byte 0, and the recovered
address equals the commit address so the final assertion passes. -/
def insEnvPow : InscriptionEnv :=
  { getSize := fun _ _ _ _ => 0,
    feeCommit := fun _ => 0,
    feeReveal := fun _ => 0,
    revealScriptOf := fun n => [n],
    controlBlockOf := fun s => 50 :: s,
    commitAddrOf := fun s => ⟨60 :: s⟩,
    recoveryAddrOf := fun s => ⟨60 :: s⟩,
    txidOf := fun t => 0 :: t.output.map (fun o => o.value % 256),
    signatureOf := fun _ => [7] }

/-- Inscription environment for the invariants witness (distinct txid
shape from insEnvPow). -/
def insEnvInv : InscriptionEnv :=
  { getSize := fun _ _ _ _ => 0,
    feeCommit := fun _ => 0,
    feeReveal := fun _ => 0,
    revealScriptOf := fun n => [n, n],
    controlBlockOf := fun s => 51 :: s,
    commitAddrOf := fun s => ⟨61 :: s⟩,
    recoveryAddrOf := fun s => ⟨61 :: s⟩,
    txidOf := fun t => 0 :: t.input.length :: t.output.map (fun o => o.value % 256),
    signatureOf := fun _ => [8] }

/-- The recipient address of the inscription witnesses. -/
def recipW : Address := ⟨[8]⟩

/-- The funding pool of the inscription witnesses. -/
def poolW : List UTXO :=
  [{ tx_id := [40], vout := 0, script_pubkey := [], address := none,
     amount := 10000, confirmations := 1, spendable := true, solvable := true }]

/-- The PoW-witness run of the inscription builder. -/
def createRunPow : Option (Outcome (Transaction × TxWithId)) :=
  create_inscription_transactions insEnvPow none poolW recipW 600 [0] 3 1 0

/-- The commit/reveal pair the PoW-witness run produced. -/
def createPairPow : Transaction × TxWithId :=
  match createRunPow with
  | some (.ok p) => p
  | _ => default

/-- The invariants-witness run of the inscription builder. -/
def createRunInv : Option (Outcome (Transaction × TxWithId)) :=
  create_inscription_transactions insEnvInv none poolW recipW 600 [0] 3 1 0

/-- The commit/reveal pair the invariants-witness run produced. -/
def createPairInv : Transaction × TxWithId :=
  match createRunInv with
  | some (.ok p) => p
  | _ => default

/-- Fork manager fixture whose single handler always fails. -/
def fmBoom : ForkManager :=
  { active_spec := 1, specs := [(3, 7)],
    migration_handlers := [fun _ => .error "boom"] }

/-- Size oracle of the commit-builder witness. -/
def gsW : SizeFn := fun i o _ _ => 10 * i.length + 20 * o.length + 50

/-- Fee oracle of the commit-builder witness (rate 1). -/
def feeW : FeeFn := fun s => s

/-- Pool of the commit-builder witness: a single 1200-sat UTXO, so the
change stays under the dust threshold. -/
def poolC7 : List UTXO :=
  [{ tx_id := [41], vout := 2, script_pubkey := [], address := none,
     amount := 1200, confirmations := 1, spendable := true, solvable := true }]

/-- Previous transaction of the commit-underflow counterexample: its
output 0 (5 sats) becomes the required UTXO. -/
def prevTxU : TxWithId :=
  { id := [77],
    tx := { version := 2, lock_time := 0, input := [],
            output := [{ value := 5, script_pubkey := [70] }] } }

/-- Pool of the commit-underflow counterexample: one 3-sat UTXO at a
distinct outpoint. -/
def poolU : List UTXO :=
  [{ tx_id := [78], vout := 0, script_pubkey := [], address := none,
     amount := 3, confirmations := 1, spendable := true, solvable := true }]

/-- Constant-zero size oracle of the commit-underflow counterexample. -/
def gsU : SizeFn := fun _ _ _ _ => 0

/-- Constant-zero fee oracle of the commit-underflow counterexample. -/
def feeU : FeeFn := fun _ => 0

/-- The two inputs the commit-underflow counterexample selects: the
required prev outpoint and the 3-sat pool UTXO. -/
def inputsU : List TxIn :=
  [{ previous_output := { txid := [77], vout := 0 }, script_sig := [],
     witness := [], sequence := SEQ_RBF },
   { previous_output := { txid := [78], vout := 0 }, script_sig := [],
     witness := [], sequence := SEQ_RBF }]

/-! ## Helper lemmas -/

theorem mem_insertStable {α : Type} (lt : α → α → Bool) (x a : α) :
    ∀ l : List α, a ∈ insertStable lt x l ↔ a = x ∨ a ∈ l := by
  intro l
  induction l with
  | nil => simp [insertStable]
  | cons y ys ih =>
      simp only [insertStable]
      split
      · simp only [List.mem_cons, ih]
        tauto
      · simp [List.mem_cons]

theorem mem_stableSort {α : Type} (lt : α → α → Bool) (a : α) :
    ∀ l : List α, a ∈ stableSort lt l ↔ a ∈ l := by
  intro l
  induction l with
  | nil => simp [stableSort]
  | cons x xs ih =>
      simp only [stableSort, mem_insertStable, ih, List.mem_cons]

theorem length_insertStable {α : Type} (lt : α → α → Bool) (x : α) :
    ∀ l : List α, (insertStable lt x l).length = l.length + 1 := by
  intro l
  induction l with
  | nil => rfl
  | cons y ys ih =>
      simp only [insertStable]
      split
      · simp [ih]
      · simp

theorem length_stableSort {α : Type} (lt : α → α → Bool) :
    ∀ l : List α, (stableSort lt l).length = l.length := by
  intro l
  induction l with
  | nil => rfl
  | cons x xs ih => simp [stableSort, length_insertStable, ih]

theorem stableSort_nil_iff {α : Type} (lt : α → α → Bool) (l : List α) :
    stableSort lt l = [] ↔ l = [] := by
  constructor
  · intro h
    have hl := length_stableSort lt l
    rw [h] at hl
    exact List.length_eq_zero.mp hl.symm
  · intro h
    subst h
    rfl

theorem head?_stableSort_firstMin :
    ∀ l : List UTXO,
      (stableSort (fun a b => a.amount < b.amount) l).head? = firstMinByAmount l := by
  intro l
  induction l with
  | nil => rfl
  | cons x xs ih =>
      simp only [stableSort, firstMinByAmount]
      cases hs : stableSort (fun a b => a.amount < b.amount) xs with
      | nil =>
          rw [hs] at ih
          rw [← ih]
          simp [insertStable]
      | cons y ys =>
          rw [hs] at ih
          rw [← ih]
          simp only [insertStable, List.head?]
          by_cases hlt : y.amount < x.amount
          · simp [hlt]
          · simp [hlt]

theorem greedyTake_shape (amount : Nat) :
    ∀ (l chosen : List UTXO) (sum : Nat), ∃ ex : List UTXO,
      (greedyTake amount l chosen sum).1 = chosen ++ ex ∧ ∀ v ∈ ex, v ∈ l := by
  intro l
  induction l with
  | nil => intro chosen sum; exact ⟨[], by simp [greedyTake]⟩
  | cons u rest ih =>
      intro chosen sum
      simp only [greedyTake]
      split
      · exact ⟨[u], by simp⟩
      · obtain ⟨ex, hex, hmem⟩ := ih (chosen ++ [u]) (sum + u.amount)
        refine ⟨[u] ++ ex, ?_, ?_⟩
        · rw [hex]; simp
        · intro v hv
          rcases List.mem_append.mp hv with h | h
          · simp at h; simp [h]
          · simp [hmem v h]

/-! ## Claim theorems -/

/-- C4 (amended): when the pool contains no entry matching the required
outpoint (as build_commit_transaction guarantees by filtering the pool
before calling the selector), every UTXO chosen in addition to the
required one is a pool entry whose (tx_id, vout) differs from the
required outpoint, and the required UTXO sits at the head of the result;
in particular the required outpoint never appears twice. -/
theorem choose_utxos_no_required_duplicate (required : UTXO) (pool : List UTXO)
    (target : Nat) (chosen : List UTXO) (sum : Nat)
    (hlt : required.amount < target)
    (hpool : ∀ v ∈ pool, ¬(v.tx_id = required.tx_id ∧ v.vout = required.vout))
    (hok : choose_utxos (some required) pool target = .ok (chosen, sum)) :
    chosen.head? = some required ∧
    ∀ v ∈ chosen.tail, v ∈ pool ∧
      ¬(v.tx_id = required.tx_id ∧ v.vout = required.vout) := by
  simp only [choose_utxos] at hok
  rw [if_neg (by omega)] at hok
  by_cases hbig : (pool.filter
      (fun u => u.amount ≥ target - required.amount)).isEmpty
  · rw [if_pos hbig] at hok
    obtain ⟨ex, hex, hmem⟩ := greedyTake_shape (target - required.amount)
      (stableSort (fun a b => b.amount < a.amount)
        (pool.filter (fun u => u.amount < target - required.amount)))
      [required] required.amount
    split at hok
    · cases hok
    · have hpair :
          greedyTake (target - required.amount)
            (stableSort (fun a b => b.amount < a.amount)
              (pool.filter (fun u => u.amount < target - required.amount)))
            [required] required.amount = (chosen, sum) := by
        injection hok
      have hch : chosen = [required] ++ ex := by
        rw [← hex, hpair]
      constructor
      · rw [hch]; rfl
      · intro v hv
        rw [hch] at hv
        simp only [List.singleton_append, List.tail_cons] at hv
        have hv2 := hmem v hv
        rw [mem_stableSort] at hv2
        have hv3 := List.mem_filter.mp hv2
        exact ⟨hv3.1, hpool v hv3.1⟩
  · rw [if_neg hbig] at hok
    cases hs : stableSort (fun a b => a.amount < b.amount)
        (pool.filter (fun u => u.amount ≥ target - required.amount)) with
    | nil =>
        rw [stableSort_nil_iff] at hs
        rw [hs] at hbig
        simp at hbig
    | cons w ws =>
        rw [hs] at hok
        cases hok
        refine ⟨rfl, ?_⟩
        intro v hv
        have hv' : v = w := by simpa using hv
        have hw : w ∈ stableSort (fun a b => a.amount < b.amount)
            (pool.filter (fun u => u.amount ≥ target - required.amount)) := by
          rw [hs]; exact List.mem_cons_self w ws
        rw [mem_stableSort] at hw
        have hw2 := List.mem_filter.mp hw
        subst hv'
        exact ⟨hw2.1, hpool v hw2.1⟩

/-- C4 witness: a concrete call with a distinct-outpoint pool, where the
selector returns the required UTXO first and one pool UTXO. -/
theorem choose_utxos_no_required_duplicate_witness :
    [uReq, uPool].head? = some uReq ∧
    ∀ v ∈ [uReq, uPool].tail, v ∈ [uPool] ∧
      ¬(v.tx_id = uReq.tx_id ∧ v.vout = uReq.vout) := by
  have h := choose_utxos_no_required_duplicate uReq [uPool] 10
    [uReq, uPool] 15 (by decide) (by decide) (by rfl)
  exact h

/-- C4 counterexample: the claim as stated quantifies over every call to
the selector; when the pool itself still contains the required outpoint
(the selector does not filter — its caller does), the required UTXO is
chosen a second time from the pool. -/
theorem choose_utxos_required_duplicate_cex :
    choose_utxos (some uDup) [uDup] 10 = .ok ([uDup, uDup], 10) ∧
    (uDup.tx_id = uDup.tx_id ∧ uDup.vout = uDup.vout) := by
  constructor
  · rfl
  · exact ⟨rfl, rfl⟩

/-- C5 (amended): for every call with required absent, a positive target
and at least one pool UTXO of amount at least the target, the selector
returns Ok with exactly the first-in-pool smallest such UTXO as its only
element (for target zero the source returns the empty selection before
consulting the pool). -/
theorem choose_utxos_single_smallest (pool : List UTXO) (target : Nat) (u : UTXO)
    (htarget : 0 < target)
    (hmin : firstMinByAmount (pool.filter (fun v => v.amount ≥ target)) = some u) :
    choose_utxos none pool target = .ok ([u], u.amount) := by
  simp only [choose_utxos]
  rw [if_neg (by omega)]
  rw [Nat.sub_zero]
  have hne : ¬ (pool.filter (fun v => v.amount ≥ target)).isEmpty := by
    cases hf : pool.filter (fun v => v.amount ≥ target) with
    | nil => rw [hf] at hmin; simp [firstMinByAmount] at hmin
    | cons a as => simp
  rw [if_neg hne]
  have hh := head?_stableSort_firstMin (pool.filter (fun v => v.amount ≥ target))
  rw [hmin] at hh
  cases hs : stableSort (fun a b => a.amount < b.amount)
      (pool.filter (fun v => v.amount ≥ target)) with
  | nil => rw [hs] at hh; simp at hh
  | cons w ws =>
      rw [hs] at hh
      simp only [List.head?] at hh
      cases hh
      simp [List.head!]

/-- C5 witness: over the pool of the spec's first scenario restricted to
its two large entries, target 105000 selects exactly the 1000000-sat
UTXO, the smallest sufficient one. -/
theorem choose_utxos_single_smallest_witness :
    0 < 105000 ∧ choose_utxos none [uBig, uMid] 105000 = .ok ([uBig], uBig.amount) :=
  ⟨by decide, choose_utxos_single_smallest [uBig, uMid] 105000 uBig (by decide)
    (by decide)⟩

/-- C5 counterexample: at target zero with a nonempty pool the hypothesis
of the claim holds (uSeven.amount is at least 0) yet the selector returns
the empty selection, not a single-element one: sum at least amount is
already true before the pool is consulted. -/
theorem choose_utxos_zero_target_cex :
    choose_utxos none [uSeven] 0 = .ok ([], 0) ∧ uSeven.amount ≥ 0 :=
  ⟨rfl, by decide⟩

/-- C8 (confirmed): build_reveal_transaction fails with the
input-too-small error precisely when the input value is below
REVEAL_OUTPUT_AMOUNT or below output_value plus the fee computed from the
skeleton size measured with the dummy witness, and otherwise returns Ok
with the unsigned one-input/one-output transaction. -/
theorem build_reveal_input_too_small_iff (getSize : SizeFn) (fee : FeeFn)
    (input_utxo : TxOut) (input_txid : Bytes) (input_vout : Nat)
    (recipient : Address) (output_value : Nat)
    (reveal_script control_block : Bytes) :
    (build_reveal_transaction getSize fee input_utxo input_txid input_vout
        recipient output_value reveal_script control_block
        = .error "input UTXO not big enough"
      ↔ (input_utxo.value < REVEAL_OUTPUT_AMOUNT ∨
          input_utxo.value < output_value + fee (getSize
            [{ previous_output := { txid := input_txid, vout := input_vout },
               script_sig := [], witness := [], sequence := SEQ_RBF }]
            [{ value := output_value, script_pubkey := recipient.script_pubkey }]
            (some reveal_script) (some control_block))))
    ∧ (build_reveal_transaction getSize fee input_utxo input_txid input_vout
          recipient output_value reveal_script control_block
          = .error "input UTXO not big enough"
       ∨ build_reveal_transaction getSize fee input_utxo input_txid input_vout
          recipient output_value reveal_script control_block
          = .ok { version := 2, lock_time := 0,
                  input := [{ previous_output :=
                                { txid := input_txid, vout := input_vout },
                              script_sig := [], witness := [],
                              sequence := SEQ_RBF }],
                  output := [{ value := output_value,
                               script_pubkey := recipient.script_pubkey }] }) := by
  simp only [build_reveal_transaction]
  by_cases hc : input_utxo.value < REVEAL_OUTPUT_AMOUNT ∨
      input_utxo.value < output_value + fee (getSize
        [{ previous_output := { txid := input_txid, vout := input_vout },
           script_sig := [], witness := [], sequence := SEQ_RBF }]
        [{ value := output_value, script_pubkey := recipient.script_pubkey }]
        (some reveal_script) (some control_block))
  · rw [if_pos hc]
    simp [hc]
  · rw [if_neg hc]
    simp [hc]

theorem runHandlers_error_decomp :
    ∀ (hs : List (Nat → Except String Unit)) (s : Nat) (e : String) (k : Nat),
      runHandlers hs s = (.error e, k) →
      ∃ pre f post, hs = pre ++ f :: post ∧ k = pre.length + 1 ∧
        (∀ g ∈ pre, g s = .ok ()) ∧ f s = .error e := by
  intro hs
  induction hs with
  | nil =>
      intro s e k h
      simp [runHandlers] at h
  | cons g gs ih =>
      intro s e k h
      simp only [runHandlers] at h
      cases hg : g s with
      | error e2 =>
          rw [hg] at h
          have h1 := congrArg Prod.fst h
          have h2 := congrArg Prod.snd h
          simp at h1 h2
          refine ⟨[], g, gs, rfl, by simp; omega, by simp, ?_⟩
          rw [hg, h1]
      | ok u =>
          cases u
          rw [hg] at h
          have h1 := congrArg Prod.fst h
          have h2 := congrArg Prod.snd h
          simp at h1 h2
          have hr : runHandlers gs s = (.error e, (runHandlers gs s).2) := by
            cases hrr : runHandlers gs s
            rw [hrr] at h1
            simp at h1
            rw [h1]
          obtain ⟨pre, f, post, hdec, hk, hpre, hf⟩ :=
            ih s e (runHandlers gs s).2 hr
          refine ⟨g :: pre, f, post, by rw [hdec]; rfl,
            by rw [List.length_cons]; omega, ?_, hf⟩
          intro g2 hg2
          rcases List.mem_cons.mp hg2 with hcase | hcase
          · rw [hcase, hg]
          · exact hpre g2 hcase

/-- C10 (confirmed): when the pending head is (s, h) and some migration
handler fails for s, register_block(h) propagates the first handler error
while active_spec is already set to s, handlers after the failing one are
never invoked (the invoked count stops right after the first failure),
the head is not popped, and a repeated register_block(h) runs the same
activation again with the same outcome. -/
theorem register_block_handler_error_state (m : ForkManager) (s h : Nat)
    (rest : List (Nat × Nat)) (e : String) (k : Nat)
    (hspecs : m.specs = (s, h) :: rest)
    (hrun : runHandlers m.migration_handlers s = (.error e, k)) :
    (m.register_block h).1 = .error e ∧
    (m.register_block h).2.active_spec = s ∧
    (m.register_block h).2.specs = (s, h) :: rest ∧
    (m.register_block h).2.migration_handlers = m.migration_handlers ∧
    ((m.register_block h).2.register_block h).1 = .error e ∧
    ((m.register_block h).2.register_block h).2.active_spec = s ∧
    ((m.register_block h).2.register_block h).2.specs = (s, h) :: rest ∧
    (∃ pre f post, m.migration_handlers = pre ++ f :: post ∧
      k = pre.length + 1 ∧ (∀ g ∈ pre, g s = .ok ()) ∧ f s = .error e) := by
  obtain ⟨a, sp, hands⟩ := m
  simp only at hspecs hrun
  subst hspecs
  refine ⟨?_, ?_, ?_, ?_, ?_, ?_, ?_, runHandlers_error_decomp hands s e k hrun⟩ <;>
    simp [ForkManager.register_block, hrun]

/-- C10 witness: a concrete manager with one failing handler behaves as
the theorem states at height 7. -/
theorem register_block_handler_error_state_witness :
    (fmBoom.register_block 7).1 = .error "boom" ∧
    (fmBoom.register_block 7).2.active_spec = 3 ∧
    (fmBoom.register_block 7).2.specs = [(3, 7)] ∧
    ((fmBoom.register_block 7).2.register_block 7).1 = .error "boom" := by
  have h := register_block_handler_error_state fmBoom 3 7 [] "boom" 1 rfl rfl
  exact ⟨h.1, h.2.1, h.2.2.1, h.2.2.2.2.1⟩

/-- C1 (amended): when the three Begin assertions hold and the begin hook
returns an error, apply_soft_confirmation reverts the working set and
returns the empty slot result: state_root is the pre-state root, no batch
receipts, empty state diff (and the pre-state as change set).  A failing
Begin or End assertion instead panics and produces no slot result. -/
theorem apply_soft_confirmation_begin_hook_error (env : StfEnv)
    (current_spec : Nat) (pk : Bytes) (root pre_state wit : Nat)
    (hdr : DaBlockHeader) (sc : SoftConfirmation) (e : String)
    (h1 : sc.sequencer_pub_key = pk) (h2 : sc.da_slot_hash = hdr.hash)
    (h3 : sc.da_slot_txs_commitment = hdr.txs_commitment)
    (h4 : env.beginHookInner current_spec sc
            (env.initCheckpoint pre_state wit) = .error e) :
    apply_soft_confirmation env current_spec pk root pre_state wit hdr sc
      = .ok { state_root := root, change_set := pre_state,
              batch_receipts := [], witness := 0, state_diff := [] } := by
  simp [apply_soft_confirmation, h1, h2, h3, h4]

/-- C1 witness: a concrete environment whose begin hook fails yields the
empty slot result with the untouched pre-state root 11. -/
theorem apply_soft_confirmation_begin_hook_error_witness :
    apply_soft_confirmation stfEnvBeginErr 0 [4] 11 22 33 cexHeader scGood
      = .ok { state_root := 11, change_set := 22, batch_receipts := [],
              witness := 0, state_diff := [] } :=
  apply_soft_confirmation_begin_hook_error stfEnvBeginErr 0 [4] 11 22 33
    cexHeader scGood "hook failed" rfl rfl rfl rfl

/-- C1 counterexample: on a sequencer-public-key mismatch the call panics
(assert_eq) instead of reverting and returning the empty slot result, so
the claim's conclusion fails for assertion failures. -/
theorem apply_soft_confirmation_assert_panics_cex :
    apply_soft_confirmation stfEnvBeginErr 0 [4] 11 22 33 cexHeader scBadKey
      = .fatal "Sequencer public key must match" ∧
    apply_soft_confirmation stfEnvBeginErr 0 [4] 11 22 33 cexHeader scBadKey
      ≠ .ok { state_root := 11, change_set := 22, batch_receipts := [],
              witness := 0, state_diff := [] } := by
  constructor
  · rfl
  · decide

/-- C6 counterexample: with schedule [(0,0), (1,5)], current height 0 and
matching active spec 0, the single ascending height 10 (all heights above
the current one) leaves the active fork at 0 because activation only
fires on exact height equality, while fork_for_height gives 1. -/
theorem fork_manager_skipped_activation_cex :
    (registerAll (ForkManager.new 0 0 [(0, 0), (1, 5)]) [10]).active_fork = 0 ∧
    fork_from_block_number [(0, 0), (1, 5)] 10 = 1 ∧
    (0 : Nat) ≠ 1 :=
  ⟨rfl, rfl, by decide⟩

theorem commitStep_done_shape (getSize : SizeFn) (fee : FeeFn)
    (req : Option UTXO) (utxos : List UTXO) (recip chg : Address)
    (ov ls : Nat) (t : Transaction)
    (h : commitStep getSize fee req utxos recip chg ov ls = .done t) :
    ∃ chosen sum, choose_utxos req utxos (ov + fee ls) = .ok (chosen, sum) ∧
      t.version = 2 ∧ t.lock_time = 0 ∧ t.input = mkInputs chosen ∧
      ((u64sub sum (ov + fee ls) < REVEAL_OUTPUT_AMOUNT ∧
         t.output = commitOutputsSingle recip ov) ∨
       (REVEAL_OUTPUT_AMOUNT ≤ u64sub sum (ov + fee ls) ∧
         t.output = commitOutputsChange recip chg ov
           (u64sub sum (ov + fee ls)))) := by
  unfold commitStep at h
  split at h
  · cases h
  · rename_i cs heq
    split at h
    · rename_i hch
      split at h
      · cases h
        exact ⟨cs.1, cs.2, heq, rfl, rfl, rfl, Or.inr ⟨hch, rfl⟩⟩
      · cases h
    · rename_i hch
      cases h
      exact ⟨cs.1, cs.2, heq, rfl, rfl, rfl, Or.inl ⟨by omega, rfl⟩⟩

theorem commitLoop_ok_of_step (getSize : SizeFn) (fee : FeeFn)
    (req : Option UTXO) (utxos : List UTXO) (recip chg : Address) (ov : Nat) :
    ∀ (fuel ls : Nat) (t : Transaction),
      commitLoop getSize fee req utxos recip chg ov fuel ls = some (.ok t) →
      ∃ ls2, commitStep getSize fee req utxos recip chg ov ls2 = .done t := by
  intro fuel
  induction fuel with
  | zero => intro ls t h; simp [commitLoop] at h
  | succ n ih =>
      intro ls t h
      simp only [commitLoop] at h
      cases hs : commitStep getSize fee req utxos recip chg ov ls with
      | failed e => rw [hs] at h; simp at h
      | done t2 =>
          rw [hs] at h
          simp only [Option.some.injEq, Outcome.ok.injEq] at h
          exact ⟨ls, by rw [hs, h]⟩
      | again s2 => rw [hs] at h; exact ih s2 t h

theorem buildCommit_ok_step (getSize : SizeFn) (fee : FeeFn)
    (prev_tx : Option TxWithId) (utxos : List UTXO) (recip chg : Address)
    (ov fuel : Nat) (t : Transaction)
    (h : build_commit_transaction getSize fee prev_tx utxos recip chg ov fuel
          = some (.ok t)) :
    ∃ ls2, commitStep getSize fee (requiredUtxoOf prev_tx)
        (commitPool (requiredUtxoOf prev_tx) utxos) recip chg ov ls2
      = .done t := by
  exact commitLoop_ok_of_step getSize fee (requiredUtxoOf prev_tx)
    (commitPool (requiredUtxoOf prev_tx) utxos) recip chg ov fuel _ t h

/-- C7 (amended): the change of the final iteration is computed by the
source's unchecked u64 subtraction, so it is u64sub sum
(output_value + fee), which equals sum - (output_value + fee) whenever
sum covers the target and wraps to a huge value when it does not (a case
reachable only with a required UTXO; debug builds panic there instead).
When that computed change is below REVEAL_OUTPUT_AMOUNT the step returns
the one-output transaction paying output_value to the recipient directly,
with no further size measurement; otherwise the returned transaction has
exactly two outputs, the second paying the computed change to the change
address. -/
theorem build_commit_output_shape (getSize : SizeFn) (fee : FeeFn)
    (prev_tx : Option TxWithId) (utxos : List UTXO)
    (recipient change_address : Address) (output_value : Nat) :
    (∀ last_size chosen sum,
        choose_utxos (requiredUtxoOf prev_tx)
            (commitPool (requiredUtxoOf prev_tx) utxos)
            (output_value + fee last_size) = .ok (chosen, sum) →
        u64sub sum (output_value + fee last_size) < REVEAL_OUTPUT_AMOUNT →
        commitStep getSize fee (requiredUtxoOf prev_tx)
            (commitPool (requiredUtxoOf prev_tx) utxos) recipient
            change_address output_value last_size
          = .done { version := 2, lock_time := 0, input := mkInputs chosen,
                    output := commitOutputsSingle recipient output_value })
    ∧ (∀ fuel t,
        build_commit_transaction getSize fee prev_tx utxos recipient
            change_address output_value fuel = some (.ok t) →
        ∃ last_size chosen sum,
          choose_utxos (requiredUtxoOf prev_tx)
              (commitPool (requiredUtxoOf prev_tx) utxos)
              (output_value + fee last_size) = .ok (chosen, sum) ∧
          t.input = mkInputs chosen ∧
          ((u64sub sum (output_value + fee last_size) < REVEAL_OUTPUT_AMOUNT ∧
             t.output = commitOutputsSingle recipient output_value) ∨
           (REVEAL_OUTPUT_AMOUNT ≤ u64sub sum (output_value + fee last_size) ∧
             t.output = commitOutputsChange recipient change_address
               output_value (u64sub sum (output_value + fee last_size))))) := by
  constructor
  · intro last_size chosen sum hc hdust
    unfold commitStep
    rw [hc]
    simp only
    rw [if_neg (by omega)]
  · intro fuel t h
    obtain ⟨ls2, hstep⟩ := buildCommit_ok_step getSize fee prev_tx utxos
      recipient change_address output_value fuel t h
    obtain ⟨chosen, sum, hc, _, _, hin, hout⟩ := commitStep_done_shape getSize fee
      (requiredUtxoOf prev_tx) (commitPool (requiredUtxoOf prev_tx) utxos)
      recipient change_address output_value ls2 t hstep
    exact ⟨ls2, chosen, sum, hc, hin, hout⟩

/-- C7 witness: with a constant-zero fee, a 1200-sat pool UTXO and output
value 1000 the change 200 is below the dust threshold, and the step at
last_size 0 returns the single-output transaction directly. -/
theorem build_commit_output_shape_witness :
    commitStep gsW feeW none poolC7 ⟨[60]⟩ ⟨[61]⟩ 1000 0
      = .done { version := 2, lock_time := 0, input := mkInputs poolC7,
                output := commitOutputsSingle ⟨[60]⟩ 1000 } := by
  have h := (build_commit_output_shape gsW feeW none poolC7 ⟨[60]⟩ ⟨[61]⟩ 1000).1
    0 poolC7 1200 (by rfl) (by decide)
  exact h

/-- C7 counterexample: with a required 5-sat UTXO, a 3-sat pool and
target 12, the selector returns Ok with sum 8 below the target (its
greedy loop compares the sum including the required amount against the
decremented target), so the input sum minus (output_value + fee) is less
than REVEAL_OUTPUT_AMOUNT in the claim's arithmetic reading — yet the
unchecked u64 subtraction wraps and build_commit_transaction returns a
transaction with two outputs whose change is 2^64 - 4, not the
single-output transaction the claim demands (debug builds panic at the
subtraction instead). -/
theorem build_commit_underflow_two_outputs_cex :
    choose_utxos (requiredUtxoOf (some prevTxU))
        (commitPool (requiredUtxoOf (some prevTxU)) poolU) 12
      = .ok ([{ tx_id := [77], vout := 0, script_pubkey := [70],
                address := none, amount := 5, confirmations := 0,
                spendable := true, solvable := true },
              { tx_id := [78], vout := 0, script_pubkey := [],
                address := none, amount := 3, confirmations := 1,
                spendable := true, solvable := true }], 8) ∧
    (8 : Nat) < 12 ∧
    build_commit_transaction gsU feeU (some prevTxU) poolU ⟨[62]⟩ ⟨[63]⟩ 12 2
      = some (.ok { version := 2, lock_time := 0, input := inputsU,
                    output := [{ value := 12, script_pubkey := [62] },
                               { value := 18446744073709551612,
                                 script_pubkey := [63] }] }) :=
  ⟨rfl, by decide, rfl⟩

theorem createStep_finished_ok_shape (env : InscriptionEnv)
    (prev_tx : Option TxWithId) (utxos : List UTXO) (recipient : Address)
    (reveal_value : Nat) (txPfx : Bytes) (commitFuel nonce : Nat)
    (c : Transaction) (r : TxWithId)
    (h : createStep env prev_tx utxos recipient reveal_value txPfx commitFuel
          nonce = .finished (.ok (c, r))) :
    ∃ reveal_tx,
      build_commit_transaction env.getSize env.feeCommit prev_tx utxos
          (env.commitAddrOf (env.revealScriptOf nonce)) recipient
          (commitValueOf env recipient reveal_value nonce) commitFuel
        = some (.ok c) ∧
      build_reveal_transaction env.getSize env.feeReveal (txOut0 c)
          (env.txidOf c) 0 recipient reveal_value (env.revealScriptOf nonce)
          (env.controlBlockOf (env.revealScriptOf nonce)) = .ok reveal_tx ∧
      startsWith txPfx (env.txidOf reveal_tx) = true ∧
      r.id = env.txidOf reveal_tx ∧
      r.tx = addWitness0 reveal_tx
        [env.signatureOf reveal_tx, env.revealScriptOf nonce,
         env.controlBlockOf (env.revealScriptOf nonce)] := by
  unfold createStep at h
  split at h
  · cases h
  · simp at h
  · simp at h
  · rename_i commit_tx hcommit
    split at h
    · simp at h
    · rename_i reveal_tx hreveal
      split at h
      · rename_i hpow
        split at h
        · rename_i haddr
          simp only [CreateStepRes.finished.injEq, Outcome.ok.injEq,
            Prod.mk.injEq] at h
          obtain ⟨hc, hr⟩ := h
          subst hc
          refine ⟨reveal_tx, hcommit, hreveal, by simpa using hpow, ?_, ?_⟩
          · rw [← hr]
          · rw [← hr]
        · cases h
      · cases h

theorem createLoop_finished_ok (env : InscriptionEnv)
    (prev_tx : Option TxWithId) (utxos : List UTXO) (recipient : Address)
    (reveal_value : Nat) (txPfx : Bytes) (commitFuel : Nat) :
    ∀ (fuel nonce : Nat) (c : Transaction) (r : TxWithId),
      create_inscription_transactions env prev_tx utxos recipient reveal_value
          txPfx commitFuel fuel nonce = some (.ok (c, r)) →
      ∃ n2, createStep env prev_tx utxos recipient reveal_value txPfx
          commitFuel n2 = .finished (.ok (c, r)) := by
  intro fuel
  induction fuel with
  | zero => intro nonce c r h; simp [create_inscription_transactions] at h
  | succ n ih =>
      intro nonce c r h
      simp only [create_inscription_transactions] at h
      cases hs : createStep env prev_tx utxos recipient reveal_value txPfx
          commitFuel nonce with
      | finished res =>
          rw [hs] at h
          simp only [Option.some.injEq] at h
          exact ⟨nonce, by rw [hs, h]⟩
      | fuelOut => rw [hs] at h; simp at h
      | retry => rw [hs] at h; exact ih (nonce + 1) c r h

/-- C2 (confirmed): whenever create_inscription_transactions returns Ok,
the byte array of the returned reveal transaction id (the array
Txid::as_raw_hash().to_byte_array() yields, which the spec calls the
txid's big-endian bytes) begins with the requested reveal_tx_prefix. -/
theorem create_inscription_reveal_txid_pow (env : InscriptionEnv)
    (prev_tx : Option TxWithId) (utxos : List UTXO) (recipient : Address)
    (reveal_value : Nat) (txPfx : Bytes) (commitFuel : Nat) :
    ∀ (fuel nonce : Nat) (c : Transaction) (r : TxWithId),
      create_inscription_transactions env prev_tx utxos recipient reveal_value
          txPfx commitFuel fuel nonce = some (.ok (c, r)) →
      startsWith txPfx r.id = true := by
  intro fuel nonce c r h
  obtain ⟨n2, hstep⟩ := createLoop_finished_ok env prev_tx utxos recipient
    reveal_value txPfx commitFuel fuel nonce c r h
  obtain ⟨reveal_tx, _, _, hpow, hid, _⟩ := createStep_finished_ok_shape env
    prev_tx utxos recipient reveal_value txPfx commitFuel n2 c r hstep
  rw [hid]
  exact hpow

/-- C2 witness: a concrete builder run with wanted byte 0 returns Ok and
its reveal txid byte array starts with 0. -/
theorem create_inscription_reveal_txid_pow_witness :
    createRunPow = some (.ok (createPairPow.1, createPairPow.2)) ∧
    startsWith [0] createPairPow.2.id = true :=
  ⟨rfl, create_inscription_reveal_txid_pow insEnvPow none poolW recipW 600 [0] 3
    1 0 createPairPow.1 createPairPow.2 rfl⟩

theorem buildReveal_ok_shape (getSize : SizeFn) (fee : FeeFn)
    (input_utxo : TxOut) (input_txid : Bytes) (input_vout : Nat)
    (recipient : Address) (output_value : Nat)
    (reveal_script control_block : Bytes) (t : Transaction)
    (h : build_reveal_transaction getSize fee input_utxo input_txid input_vout
          recipient output_value reveal_script control_block = .ok t) :
    t = { version := 2, lock_time := 0,
          input := [{ previous_output := { txid := input_txid, vout := input_vout },
                      script_sig := [], witness := [], sequence := SEQ_RBF }],
          output := [{ value := output_value,
                       script_pubkey := recipient.script_pubkey }] } := by
  simp only [build_reveal_transaction] at h
  split at h
  · cases h
  · simp only [Except.ok.injEq] at h
    exact h.symm

theorem mem_mkInputs_fields (chosen : List UTXO) (i : TxIn)
    (h : i ∈ mkInputs chosen) :
    i.script_sig = [] ∧ i.witness = [] ∧ i.sequence = SEQ_RBF := by
  unfold mkInputs at h
  obtain ⟨u, _, hu⟩ := List.mem_map.mp h
  rw [← hu]
  exact ⟨rfl, rfl, rfl⟩

/-- C9 (confirmed): every transaction the builders produce has version 2,
lock_time 0, an empty script_sig and the RBF sequence 0xFFFFFFFD on every
input; the reveal transaction has exactly one input spending output 0 of
the commit transaction and exactly one output paying the recipient, and
after signing its witness is exactly [schnorr_sig, reveal_script,
control_block]. -/
theorem builders_transaction_invariants :
    (∀ (getSize : SizeFn) (fee : FeeFn) (prev_tx : Option TxWithId)
        (utxos : List UTXO) (recipient change_address : Address)
        (output_value fuel : Nat) (t : Transaction),
       build_commit_transaction getSize fee prev_tx utxos recipient
           change_address output_value fuel = some (.ok t) →
       t.version = 2 ∧ t.lock_time = 0 ∧
       ∀ i ∈ t.input, i.script_sig = [] ∧ i.witness = [] ∧ i.sequence = SEQ_RBF)
    ∧ (∀ (getSize : SizeFn) (fee : FeeFn) (input_utxo : TxOut)
         (input_txid : Bytes) (input_vout : Nat) (recipient : Address)
         (output_value : Nat) (reveal_script control_block : Bytes)
         (t : Transaction),
        build_reveal_transaction getSize fee input_utxo input_txid input_vout
            recipient output_value reveal_script control_block = .ok t →
        t.version = 2 ∧ t.lock_time = 0 ∧
        t.input = [{ previous_output := { txid := input_txid, vout := input_vout },
                     script_sig := [], witness := [], sequence := SEQ_RBF }] ∧
        t.output = [{ value := output_value,
                      script_pubkey := recipient.script_pubkey }])
    ∧ (∀ (env : InscriptionEnv) (prev_tx : Option TxWithId) (utxos : List UTXO)
         (recipient : Address) (reveal_value : Nat) (txPfx : Bytes)
         (commitFuel fuel nonce : Nat) (c : Transaction) (r : TxWithId),
        create_inscription_transactions env prev_tx utxos recipient
            reveal_value txPfx commitFuel fuel nonce = some (.ok (c, r)) →
        c.version = 2 ∧ c.lock_time = 0 ∧
        (∀ i ∈ c.input, i.script_sig = [] ∧ i.sequence = SEQ_RBF) ∧
        r.tx.version = 2 ∧ r.tx.lock_time = 0 ∧
        r.tx.output = [{ value := reveal_value,
                         script_pubkey := recipient.script_pubkey }] ∧
        ∃ n2, r.tx.input =
          [{ previous_output := { txid := env.txidOf c, vout := 0 },
             script_sig := [],
             witness := [env.signatureOf
                 { version := 2, lock_time := 0,
                   input := [{ previous_output :=
                                 { txid := env.txidOf c, vout := 0 },
                               script_sig := [], witness := [],
                               sequence := SEQ_RBF }],
                   output := [{ value := reveal_value,
                                script_pubkey := recipient.script_pubkey }] },
               env.revealScriptOf n2,
               env.controlBlockOf (env.revealScriptOf n2)],
             sequence := SEQ_RBF }]) := by
  refine ⟨?_, ?_, ?_⟩
  · intro getSize fee prev_tx utxos recipient change_address output_value fuel
      t h
    obtain ⟨ls2, hstep⟩ := buildCommit_ok_step getSize fee prev_tx utxos
      recipient change_address output_value fuel t h
    obtain ⟨chosen, sum, _, hv, hl, hin, _⟩ := commitStep_done_shape getSize fee
      (requiredUtxoOf prev_tx) (commitPool (requiredUtxoOf prev_tx) utxos)
      recipient change_address output_value ls2 t hstep
    refine ⟨hv, hl, ?_⟩
    intro i hi
    rw [hin] at hi
    exact mem_mkInputs_fields chosen i hi
  · intro getSize fee input_utxo input_txid input_vout recipient output_value
      reveal_script control_block t h
    rw [buildReveal_ok_shape getSize fee input_utxo input_txid input_vout
      recipient output_value reveal_script control_block t h]
    exact ⟨rfl, rfl, rfl, rfl⟩
  · intro env prev_tx utxos recipient reveal_value txPfx commitFuel fuel nonce
      c r h
    obtain ⟨n2, hstep⟩ := createLoop_finished_ok env prev_tx utxos recipient
      reveal_value txPfx commitFuel fuel nonce c r h
    obtain ⟨reveal_tx, hcommit, hreveal, _, _, htx⟩ :=
      createStep_finished_ok_shape env prev_tx utxos recipient
        reveal_value txPfx commitFuel n2 c r hstep
    · obtain ⟨ls2, hcstep⟩ := buildCommit_ok_step env.getSize env.feeCommit
        prev_tx utxos (env.commitAddrOf (env.revealScriptOf n2)) recipient
        (commitValueOf env recipient reveal_value n2) commitFuel c hcommit
      obtain ⟨chosen, sum, _, hv, hl, hin, _⟩ := commitStep_done_shape
        env.getSize env.feeCommit (requiredUtxoOf prev_tx)
        (commitPool (requiredUtxoOf prev_tx) utxos)
        (env.commitAddrOf (env.revealScriptOf n2)) recipient
        (commitValueOf env recipient reveal_value n2) ls2 c hcstep

      have hrshape := buildReveal_ok_shape env.getSize env.feeReveal (txOut0 c)
        (env.txidOf c) 0 recipient reveal_value (env.revealScriptOf n2)
        (env.controlBlockOf (env.revealScriptOf n2)) reveal_tx hreveal
      refine ⟨hv, hl, ?_, ?_, ?_, ?_, n2, ?_⟩
      · intro i hi
        rw [hin] at hi
        have hf := mem_mkInputs_fields chosen i hi
        exact ⟨hf.1, hf.2.2⟩
      · rw [htx, hrshape]; rfl
      · rw [htx, hrshape]; rfl
      · rw [htx, hrshape]; rfl
      · rw [htx, hrshape]
        rfl

/-- C9 witness: a concrete run where the reveal transaction spends commit
output 0, pays 600 to the recipient and carries the three-item witness. -/
theorem builders_transaction_invariants_witness :
    createRunInv = some (.ok (createPairInv.1, createPairInv.2)) ∧
    createPairInv.2.tx.output
      = [{ value := 600, script_pubkey := recipW.script_pubkey }] ∧
    createPairInv.2.tx.version = 2 ∧ createPairInv.2.tx.lock_time = 0 := by
  have h := builders_transaction_invariants.2.2 insEnvInv none poolW recipW 600
    [0] 3 1 0 createPairInv.1 createPairInv.2 rfl
  exact ⟨rfl, h.2.2.2.2.2.1, h.2.2.2.1, h.2.2.2.2.1⟩

/-- C3 (amended): for every processed sequencer commitment, the Merkle
root computed with SHA-256 over the ordered confirmation hashes using
rs_merkle's rule — a lone odd node at any level is promoted to the next
level unchanged, not hashed with a copy of itself — is asserted equal to
commitment.merkle_root, and the replay aborts when they differ (given the
pre-Merkle checks of that commitment passed). -/
theorem process_commitment_merkle_mismatch_aborts (env : StfEnv) (spk : Bytes)
    (pre_state : Nat) (forks : List (Nat × Nat))
    (commitment : SequencerCommitment) (confs : List SoftConfirmation)
    (hdrs : List DaBlockHeader) (wits : List Nat) (st : ReplayState)
    (prev : Bytes)
    (hpre : commitmentPreStage commitment confs hdrs st.previous_batch_hash
        st.last_commitment_end_height = .ok prev)
    (hne : rs_merkle_root (confs.map (fun sc => sc.hash))
        ≠ some commitment.merkle_root) :
    processCommitment env spk pre_state forks commitment confs hdrs wits st
      = .fatal "Invalid merkle root" := by
  simp only [processCommitment, hpre]
  rw [if_pos hne]

/-- C3 witness: a single-confirmation commitment whose claimed root [0]
differs from the confirmation hash aborts with the Merkle assertion. -/
theorem process_commitment_merkle_mismatch_aborts_witness :
    processCommitment stfEnvOk [4] 0 [(0, 0)] mrBadCommitment [scGood]
        [cexHeader] [0] mrState = .fatal "Invalid merkle root" :=
  process_commitment_merkle_mismatch_aborts stfEnvOk [4] 0 [(0, 0)]
    mrBadCommitment [scGood] [cexHeader] [0] mrState [10] rfl (by decide)

set_option maxRecDepth 1000000 in
/-- C3 counterexample: on three leaves the root the code computes
(rs_merkle promotion) differs from the duplicate-last Bitcoin-style root
the claim describes, and a commitment carrying the promotion root passes
the Merkle assertion — the replay does not abort although the
duplicate-last root differs from commitment.merkle_root. -/
theorem merkle_promotion_not_duplicate_cex :
    rs_merkle_root mrLeaves = some mrCommitment.merkle_root ∧
    dup_merkle_root mrLeaves ≠ some mrCommitment.merkle_root ∧
    processCommitment stfEnvOk [4] 0 [(0, 0)] mrCommitment
        [mrConf 1, mrConf 2, mrConf 3] [mrHeader] [0, 0, 0] mrState
      ≠ .fatal "Invalid merkle root" := by
  refine ⟨rfl, by decide, by decide⟩

theorem insertStable_front {α : Type} (lt : α → α → Bool) (x : α)
    (l : List α) (h : ∀ y ∈ l, lt y x = false) : insertStable lt x l = x :: l := by
  cases l with
  | nil => rfl
  | cons y ys =>
      simp only [insertStable]
      rw [h y (List.mem_cons_self y ys)]
      simp

theorem stableSort_eq_self {α : Type} (lt : α → α → Bool) :
    ∀ l : List α, l.Pairwise (fun a b => lt b a = false) →
      stableSort lt l = l := by
  intro l
  induction l with
  | nil => intro _; rfl
  | cons x xs ih =>
      intro hp
      rw [List.pairwise_cons] at hp
      simp only [stableSort]
      rw [ih hp.2, insertStable_front lt x xs hp.1]

theorem forkFromGo_no_fire :
    ∀ (rest : List (Nat × Nat)) (f bn : Nat),
      (∀ q ∈ rest, ¬ q.2 ≤ bn) → forkFromGo f rest bn = f := by
  intro rest
  induction rest with
  | nil => intro f bn _; rfl
  | cons p ps ih =>
      intro f bn h
      obtain ⟨s, a⟩ := p
      simp only [forkFromGo]
      rw [if_neg (by exact fun hc => h (s, a) (List.mem_cons_self _ _) hc)]
      exact ih f bn (fun q hq => h q (List.mem_cons_of_mem _ hq))

theorem forkFromGo_mem_sorted :
    ∀ (rest : List (Nat × Nat)) (f s bn : Nat),
      rest.Pairwise (fun p q => p.2 < q.2) → (s, bn) ∈ rest →
      forkFromGo f rest bn = s := by
  intro rest
  induction rest with
  | nil => intro f s bn _ hm; cases hm
  | cons p ps ih =>
      intro f s bn hp hm
      rw [List.pairwise_cons] at hp
      rcases List.mem_cons.mp hm with he | ht
      · subst he
        simp only [forkFromGo]
        rw [if_pos (Nat.le_refl bn)]
        exact forkFromGo_no_fire ps s bn
          (fun q hq => by have := hp.1 q hq; simp at this ⊢; omega)
      · obtain ⟨s2, a2⟩ := p
        simp only [forkFromGo]
        exact ih _ s bn hp.2 ht

theorem forkFromGo_succ_eq :
    ∀ (rest : List (Nat × Nat)) (f h : Nat),
      (∀ q ∈ rest, q.2 ≠ h + 1) →
      forkFromGo f rest (h + 1) = forkFromGo f rest h := by
  intro rest
  induction rest with
  | nil => intro f h _; rfl
  | cons p ps ih =>
      intro f h hno
      obtain ⟨s2, a2⟩ := p
      have ha2 : a2 ≠ h + 1 := by
        have := hno (s2, a2) (List.mem_cons_self _ _); simpa using this
      simp only [forkFromGo]
      have hsame : (if h + 1 ≥ a2 then s2 else f) = (if h ≥ a2 then s2 else f) := by
        by_cases hc : h ≥ a2
        · rw [if_pos (by omega), if_pos hc]
        · rw [if_neg (by omega), if_neg hc]
      rw [hsame]
      exact ih _ h (fun q hq => hno q (List.mem_cons_of_mem _ hq))

theorem forkFromGo_cases :
    ∀ (rest : List (Nat × Nat)) (f bn : Nat),
      forkFromGo f rest bn = f ∨
      ∃ q ∈ rest, q.1 = forkFromGo f rest bn ∧ q.2 ≤ bn := by
  intro rest
  induction rest with
  | nil => intro f bn; left; rfl
  | cons p ps ih =>
      intro f bn
      obtain ⟨s2, a2⟩ := p
      simp only [forkFromGo]
      rcases ih (if bn ≥ a2 then s2 else f) bn with h | ⟨q, hq, h1, h2⟩
      · by_cases hc : bn ≥ a2
        · right
          refine ⟨(s2, a2), List.mem_cons_self _ _, ?_, hc⟩
          rw [h, if_pos hc]
        · left
          rw [h, if_neg hc]
      · right
        exact ⟨q, List.mem_cons_of_mem _ hq, h1, h2⟩

theorem forkManager_new_specs (s0 a0 : Nat) (stail : List (Nat × Nat))
    (current : Nat)
    (hsorted : ((s0, a0) :: stail).Pairwise (fun p q => p.2 < q.2))
    (hnodup : (((s0, a0) :: stail).map Prod.fst).Nodup)
    (ha0 : a0 ≤ current) :
    (ForkManager.new current
        (fork_from_block_number ((s0, a0) :: stail) current)
        ((s0, a0) :: stail)).specs
      = ((s0, a0) :: stail).filter (fun p => decide (current < p.2)) := by
  have hfeq : ((s0, a0) :: stail).filter
      (fun p => p.1 != fork_from_block_number ((s0, a0) :: stail) current
        && decide (current < p.2))
      = ((s0, a0) :: stail).filter (fun p => decide (current < p.2)) := by
    apply List.filter_congr
    intro p hp
    by_cases hc : current < p.2
    · have hne : p.1 ≠ fork_from_block_number ((s0, a0) :: stail) current := by
        intro heq
        rcases forkFromGo_cases stail s0 current with hbase | ⟨q, hq, hq1, hq2⟩
        · have hps0 : p.1 = (s0, a0).1 := by
            rw [heq]
            simp only [fork_from_block_number]
            rw [hbase]
          have hpe : p = (s0, a0) :=
            List.inj_on_of_nodup_map hnodup hp (List.mem_cons_self _ _) hps0
          rw [hpe] at hc
          simp at hc
          omega
        · have hpq : p.1 = q.1 := by
            rw [heq]
            simp only [fork_from_block_number]
            rw [← hq1]
          have hpe : p = q :=
            List.inj_on_of_nodup_map hnodup hp
              (List.mem_cons_of_mem _ hq) hpq
          rw [hpe] at hc
          omega
      simp [hc, hne]
    · simp [hc]
  unfold ForkManager.new
  simp only
  rw [hfeq]
  apply stableSort_eq_self
  have hps : (((s0, a0) :: stail).filter
      (fun p => decide (current < p.2))).Pairwise (fun p q => p.2 < q.2) :=
    hsorted.filter _
  exact hps.imp (fun hab => by simp; omega)

theorem register_block_fires (ma s a : Nat) (rest : List (Nat × Nat)) :
    (ForkManager.mk ma ((s, a) :: rest) []).register_block a
      = (.ok (), ForkManager.mk s rest []) := by
  simp [ForkManager.register_block, runHandlers]

theorem register_block_skip (ma h s a : Nat) (rest : List (Nat × Nat))
    (hne : h ≠ a) :
    (ForkManager.mk ma ((s, a) :: rest) []).register_block h
      = (.ok (), ForkManager.mk ma ((s, a) :: rest) []) := by
  simp [ForkManager.register_block, hne]

theorem register_step_inv (s0 a0 : Nat) (stail : List (Nat × Nat)) (h : Nat)
    (ma : Nat)
    (hsorted : ((s0, a0) :: stail).Pairwise (fun p q => p.2 < q.2))
    (ha0 : a0 ≤ h)
    (hact : ma = fork_from_block_number ((s0, a0) :: stail) h) :
    ((ForkManager.mk ma
        (((s0, a0) :: stail).filter (fun p => decide (h < p.2)))
        []).register_block (h + 1)).2
      = ForkManager.mk (fork_from_block_number ((s0, a0) :: stail) (h + 1))
          (((s0, a0) :: stail).filter (fun p => decide (h + 1 < p.2))) [] := by
  cases hP : ((s0, a0) :: stail).filter (fun p => decide (h < p.2)) with
  | nil =>
      have hnone : ∀ q ∈ (s0, a0) :: stail, ¬ h < q.2 := by
        intro q hq
        have h2 := List.filter_eq_nil_iff.mp hP q hq
        simpa using h2
      have hnone1 : ∀ q ∈ stail, q.2 ≠ h + 1 := by
        intro q hq
        have := hnone q (List.mem_cons_of_mem _ hq)
        omega
      have hreg : (ForkManager.mk ma ([] : List (Nat × Nat)) []).register_block
          (h + 1) = (.ok (), ForkManager.mk ma [] []) := rfl
      rw [hreg]
      have hfork : fork_from_block_number ((s0, a0) :: stail) (h + 1)
          = fork_from_block_number ((s0, a0) :: stail) h := by
        simp only [fork_from_block_number]
        exact forkFromGo_succ_eq stail s0 h hnone1
      have hfilt : ((s0, a0) :: stail).filter (fun p => decide (h + 1 < p.2))
          = [] := by
        rw [List.filter_eq_nil_iff]
        intro q hq
        have := hnone q hq
        simp
        omega
      rw [hfork, hfilt, ← hact]
  | cons p rest' =>
      obtain ⟨s, a⟩ := p
      have hpP : (s, a) ∈ ((s0, a0) :: stail).filter
          (fun p => decide (h < p.2)) := by
        rw [hP]; exact List.mem_cons_self _ _
      have hpmem : (s, a) ∈ (s0, a0) :: stail := (List.mem_filter.mp hpP).1
      have hpgt : h < a := by
        have := (List.mem_filter.mp hpP).2; simpa using this
      have hPsorted := hsorted.filter (fun p => decide (h < p.2))
      rw [hP] at hPsorted
      have hrest : ∀ q ∈ rest', a < q.2 := by
        intro q hq
        exact (List.pairwise_cons.mp hPsorted).1 q hq
      by_cases hcase : a = h + 1
      · subst hcase
        rw [register_block_fires]
        have hmem2 : (s, h + 1) ∈ stail := by
          rcases List.mem_cons.mp hpmem with he | ht
          · exfalso
            have : a0 = h + 1 := (congrArg Prod.snd he).symm
            omega
          · exact ht
        have hfork : fork_from_block_number ((s0, a0) :: stail) (h + 1) = s := by
          simp only [fork_from_block_number]
          exact forkFromGo_mem_sorted stail s0 s (h + 1)
            (List.pairwise_cons.mp hsorted).2 hmem2
        have hfilt : ((s0, a0) :: stail).filter
            (fun p => decide (h + 1 < p.2)) = rest' := by
          have h1 : ((s0, a0) :: stail).filter (fun p => decide (h + 1 < p.2))
              = (((s0, a0) :: stail).filter (fun p => decide (h < p.2))).filter
                  (fun p => decide (h + 1 < p.2)) := by
            rw [List.filter_filter]
            apply List.filter_congr
            intro p hp
            by_cases hc : h + 1 < p.2
            · simp [hc, show h < p.2 from by omega]
            · simp [hc]
          rw [h1, hP]
          rw [List.filter_cons_of_neg (by simp)]
          rw [List.filter_eq_self.mpr]
          intro q hq
          have := hrest q hq
          simp
          omega
        rw [hfork, hfilt]
      · have hnone1 : ∀ q ∈ stail, q.2 ≠ h + 1 := by
          intro q hq hqe
          have hqP : q ∈ ((s0, a0) :: stail).filter
              (fun p => decide (h < p.2)) := by
            refine List.mem_filter.mpr ⟨List.mem_cons_of_mem _ hq, ?_⟩
            simp
            omega
          rw [hP] at hqP
          rcases List.mem_cons.mp hqP with he | ht
          · have : q.2 = a := congrArg Prod.snd he
            omega
          · have := hrest q ht
            omega
        rw [register_block_skip ma (h + 1) s a rest' (by omega)]
        have hfork : fork_from_block_number ((s0, a0) :: stail) (h + 1)
            = fork_from_block_number ((s0, a0) :: stail) h := by
          simp only [fork_from_block_number]
          exact forkFromGo_succ_eq stail s0 h hnone1
        have hfilt : ((s0, a0) :: stail).filter
            (fun p => decide (h + 1 < p.2))
            = ((s0, a0) :: stail).filter (fun p => decide (h < p.2)) := by
          apply List.filter_congr
          intro p hp
          rcases List.mem_cons.mp hp with he | ht
          · have : p.2 = a0 := congrArg Prod.snd he
            simp
            omega
          · have := hnone1 p ht
            simp
            omega
        rw [hfork, hfilt, hP, ← hact]

theorem registerAll_consecutive_inv (s0 a0 : Nat) (stail : List (Nat × Nat))
    (current : Nat)
    (hsorted : ((s0, a0) :: stail).Pairwise (fun p q => p.2 < q.2))
    (hnodup : (((s0, a0) :: stail).map Prod.fst).Nodup)
    (ha0 : a0 ≤ current) :
    ∀ n : Nat,
      registerAll (ForkManager.new current
          (fork_from_block_number ((s0, a0) :: stail) current)
          ((s0, a0) :: stail))
        ((List.range n).map (fun i => current + 1 + i))
      = ForkManager.mk
          (fork_from_block_number ((s0, a0) :: stail) (current + n))
          (((s0, a0) :: stail).filter (fun p => decide (current + n < p.2)))
          [] := by
  intro n
  induction n with
  | zero =>
      have hnew : ForkManager.new current
          (fork_from_block_number ((s0, a0) :: stail) current)
          ((s0, a0) :: stail)
          = ForkManager.mk
              (fork_from_block_number ((s0, a0) :: stail) current)
              (((s0, a0) :: stail).filter (fun p => decide (current < p.2)))
              [] := by
        have hs := forkManager_new_specs s0 a0 stail current hsorted hnodup ha0
        unfold ForkManager.new at hs ⊢
        simp only at hs ⊢
        rw [hs]
      simpa [registerAll] using hnew
  | succ n ih =>
      have hrange : (List.range (n + 1)).map (fun i => current + 1 + i)
          = (List.range n).map (fun i => current + 1 + i)
            ++ [current + 1 + n] := by
        rw [List.range_succ, List.map_append]
        rfl
      rw [hrange]
      unfold registerAll
      rw [List.foldl_append]
      have ihf := ih
      unfold registerAll at ihf
      rw [ihf]
      simp only [List.foldl_cons, List.foldl_nil]
      have harg : current + 1 + n = (current + n) + 1 := by omega
      rw [harg]
      have hstep := register_step_inv s0 a0 stail (current + n)
        (fork_from_block_number ((s0, a0) :: stail) (current + n)) hsorted
        (by omega) rfl
      rw [hstep]
      have hsum : (current + n) + 1 = current + (n + 1) := by omega
      rw [hsum]

/-- C6 (amended): for every well-formed schedule (nonempty, activation
heights strictly increasing, pairwise distinct spec ids, genesis entry
already activated) and every run of register_block over the consecutive
heights current+1, ..., current+n on a manager constructed at the current
height with the matching active spec, active_fork() afterwards equals
fork_for_height(schedule, current+n).  For non-consecutive ascending
sequences the property fails, because activations fire only on exact
height equality. -/
theorem fork_manager_consecutive_heights_active_fork (s0 a0 : Nat)
    (stail : List (Nat × Nat)) (current n : Nat)
    (hsorted : ((s0, a0) :: stail).Pairwise (fun p q => p.2 < q.2))
    (hnodup : (((s0, a0) :: stail).map Prod.fst).Nodup)
    (ha0 : a0 ≤ current) :
    (registerAll (ForkManager.new current
        (fork_from_block_number ((s0, a0) :: stail) current)
        ((s0, a0) :: stail))
      ((List.range n).map (fun i => current + 1 + i))).active_fork
    = fork_from_block_number ((s0, a0) :: stail) (current + n) := by
  rw [registerAll_consecutive_inv s0 a0 stail current hsorted hnodup ha0 n]
  rfl

/-- C6 witness: over the schedule [(0,0), (1,5), (2,9)] starting at
height 0, registering the consecutive heights 1..9 activates fork 2, the
fork for height 9. -/
theorem fork_manager_consecutive_heights_active_fork_witness :
    (registerAll (ForkManager.new 0
        (fork_from_block_number [(0, 0), (1, 5), (2, 9)] 0)
        [(0, 0), (1, 5), (2, 9)])
      ((List.range 9).map (fun i => 0 + 1 + i))).active_fork
    = fork_from_block_number [(0, 0), (1, 5), (2, 9)] (0 + 9) :=
  fork_manager_consecutive_heights_active_fork 0 0 [(1, 5), (2, 9)] 0 9
    (by decide) (by decide) (by decide)

end Citrea
